import Mathlib

/-!
# SimpleBank core — shallow embedding and verification

This file embeds the transactional core of the SimpleBank repository
(`db/sqlc/store.go`, the API transfer handler, and `util/fx.go`) in Lean 4
and proves the specified properties about it.

Modelling conventions:
* Go `int64` values (ids, balances, amounts) are modelled as `Int`; the
  claims under verification are about ledger arithmetic well inside the
  `int64` range, so two's-complement wrap-around is not modelled.
* The relational store is a `DB` record holding the `accounts`, `entries`
  and `transfers` tables as lists plus the next serial ids.  `DB.touched`
  is ghost instrumentation: it records, in order, the account ids whose
  rows are write-locked/updated (`UPDATE ... RETURNING *` and
  `SELECT ... FOR UPDATE`), so lock-ordering claims can be stated.
* Fallible SQL statements are modelled as `Except String`: an `INSERT`
  violating a foreign-key constraint and an `UPDATE`/`SELECT` finding no
  row return `.error` (schema: `entries.account_id` and
  `transfers.from/to_account_id` reference `accounts.id`).
* `created_at` timestamps are not modelled (no claim depends on them).
-/

/-- An `accounts` row (`db/sqlc` generated model; schema §6 of the spec).
`created_at` omitted. -/
structure Account where
  id : Int
  owner : String
  balance : Int
  currency : String
  deriving Repr, DecidableEq

/-- An `entries` row: one signed ledger line against one account. -/
structure Entry where
  id : Int
  accountID : Int
  amount : Int
  deriving Repr, DecidableEq

/-- A `transfers` row: one ledger movement between two accounts. -/
structure Transfer where
  id : Int
  fromAccountID : Int
  toAccountID : Int
  amount : Int
  deriving Repr, DecidableEq

/-- The relational store state.  `touched` is ghost state recording the
order in which account rows are write-locked (updated / selected for
update) — it exists only so lock-ordering properties can be stated. -/
structure DB where
  accounts : List Account
  entries : List Entry
  transfers : List Transfer
  nextEntryID : Int
  nextTransferID : Int
  touched : List Int
  deriving Repr, DecidableEq

/-- `SELECT * FROM accounts WHERE id = $1 LIMIT 1` (first matching row). -/
def findAccount (db : DB) (id : Int) : Option Account :=
  db.accounts.find? (fun a => a.id == id)

/-- `{a with balance := a.balance + delta}` — the row produced by the
atomic increment `SET balance = balance + $2`. -/
def Account.addBal (a : Account) (delta : Int) : Account :=
  { a with balance := a.balance + delta }

/-- The accounts table after `UPDATE accounts SET balance = balance + d
WHERE id = i`. -/
def applyDelta (l : List Account) (i : Int) (d : Int) : List Account :=
  l.map (fun a => if a.id == i then a.addBal d else a)

/-- Argument struct of the generated `CreateTransfer` query. -/
structure CreateTransferParams where
  fromAccountID : Int
  toAccountID : Int
  amount : Int
  deriving Repr, DecidableEq

/-- Argument struct of the generated `CreateEntry` query. -/
structure CreateEntryParams where
  accountID : Int
  amount : Int
  deriving Repr, DecidableEq

/-- Argument struct of the generated `UpdateAccountBalance` query. -/
structure UpdateAccountBalanceParams where
  id : Int
  balance : Int
  deriving Repr, DecidableEq

/-- `INSERT INTO transfers (from_account_id, to_account_id, amount) VALUES
($1,$2,$3) RETURNING *`.  Fails with a constraint violation when either
referenced account does not exist. -/
def CreateTransfer (db : DB) (p : CreateTransferParams) :
    Except String (Transfer × DB) :=
  if (findAccount db p.fromAccountID).isSome &&
     (findAccount db p.toAccountID).isSome then
    let t : Transfer :=
      ⟨db.nextTransferID, p.fromAccountID, p.toAccountID, p.amount⟩
    .ok (t, { db with transfers := db.transfers ++ [t],
                      nextTransferID := db.nextTransferID + 1 })
  else
    .error "foreign key violation"

/-- `INSERT INTO entries (account_id, amount) VALUES ($1,$2) RETURNING *`.
Fails with a constraint violation when the referenced account does not
exist. -/
def CreateEntry (db : DB) (p : CreateEntryParams) :
    Except String (Entry × DB) :=
  if (findAccount db p.accountID).isSome then
    let e : Entry := ⟨db.nextEntryID, p.accountID, p.amount⟩
    .ok (e, { db with entries := db.entries ++ [e],
                      nextEntryID := db.nextEntryID + 1 })
  else
    .error "foreign key violation"

/-- `UPDATE accounts SET balance = balance + $2 WHERE id = $1 RETURNING *`
(atomic increment).  Returns the updated row; errors with no-rows when the
account does not exist.  The updated row id is appended to the ghost
`touched` trace (the update takes the row's write lock). -/
def UpdateAccountBalance (db : DB) (p : UpdateAccountBalanceParams) :
    Except String (Account × DB) :=
  match findAccount db p.id with
  | none => .error "sql: no rows in result set"
  | some a =>
      .ok (a.addBal p.balance,
           { db with accounts := applyDelta db.accounts p.id p.balance,
                     touched := db.touched ++ [p.id] })

/-- `getAccountForUpdate`: `SELECT ... FOR UPDATE` — reads the row and
takes its write lock (recorded in the ghost `touched` trace). -/
def getAccountForUpdate (db : DB) (accountID : Int) :
    Except String (Account × DB) :=
  match findAccount db accountID with
  | none => .error "sql: no rows in result set"
  | some a => .ok (a, { db with touched := db.touched ++ [accountID] })

/-- `addAccountsForUpdate` (store.go:81–95): swaps the two ids so the
numerically smaller one is locked first, then fetches both rows with
`FOR UPDATE`. -/
def addAccountsForUpdate (db : DB) (accountID1 accountID2 : Int) :
    Except String (Account × Account × DB) :=
  match (if accountID1 > accountID2
         then (accountID2, accountID1)
         else (accountID1, accountID2)) with
  | (id1, id2) =>
    match getAccountForUpdate db id1 with
    | .error e => .error e
    | .ok (account1, db1) =>
      match getAccountForUpdate db1 id2 with
      | .error e => .error e
      | .ok (account2, db2) => .ok (account1, account2, db2)

/-- Failure injection for the transaction infrastructure: whether
`BeginTx`, `Rollback`, `Commit` fail in this call, and with what error. -/
structure TxEnv where
  beginErr : Option String
  rollbackErr : Option String
  commitErr : Option String
  deriving Repr, DecidableEq

/-- Ghost trace of transaction lifecycle events. -/
inductive TxEvent where
  | begin
  | rollback
  | commit
  deriving Repr, DecidableEq

/-- Outcome of `execTx`: the observable database state afterwards, the
value or error returned to the caller, and the ghost event trace. -/
structure TxOutcome (α : Type) where
  db : DB
  result : Except String α
  events : List TxEvent
  deriving Repr

/-- `execTx` (store.go:33–59): begin a transaction; run `fn` against it;
on `fn` error roll back (combining the two errors if rollback itself
fails, as `fmt.Errorf("tx err: %v, rb err: %v", err, rbErr)`); on success
commit, propagating any commit failure.  The returned `db` is the state
observable after the call: the input state unless a commit succeeded. -/
def execTx {α : Type} (env : TxEnv) (db : DB)
    (fn : DB → Except String (α × DB)) : TxOutcome α :=
  match env.beginErr with
  | some e => ⟨db, .error e, []⟩
  | none =>
    match fn db with
    | .error e =>
      match env.rollbackErr with
      | some rbErr =>
          ⟨db, .error ("tx err: " ++ e ++ ", rb err: " ++ rbErr),
           [.begin, .rollback]⟩
      | none => ⟨db, .error e, [.begin, .rollback]⟩
    | .ok (a, db2) =>
      match env.commitErr with
      | some ce => ⟨db, .error ce, [.begin, .commit]⟩
      | none => ⟨db2, .ok a, [.begin, .commit]⟩

/-- `TransferTxParams` (store.go:63–67). -/
structure TransferTxParams where
  fromAccountID : Int
  toAccountID : Int
  amount : Int
  deriving Repr, DecidableEq

/-- `TransferTxResult` (store.go:71–77). -/
structure TransferTxResult where
  transfer : Transfer
  fromAccount : Account
  toAccount : Account
  fromEntry : Entry
  toEntry : Entry
  deriving Repr, DecidableEq

/-- The closure passed by `TransferTx` to `execTx` (store.go:130–202):
insert the transfer row, the debit entry (`-amount`) and the credit entry
(`+amount`), then apply the two balance deltas in ascending account-id
order (`if arg.FromAccountID < arg.ToAccountID` … `else` …). -/
def transferTxBody (arg : TransferTxParams) (db : DB) :
    Except String (TransferTxResult × DB) :=
  match CreateTransfer db
      ⟨arg.fromAccountID, arg.toAccountID, arg.amount⟩ with
  | .error e => .error e
  | .ok (transfer, db1) =>
    match CreateEntry db1 ⟨arg.fromAccountID, -arg.amount⟩ with
    | .error e => .error e
    | .ok (fromEntry, db2) =>
      match CreateEntry db2 ⟨arg.toAccountID, arg.amount⟩ with
      | .error e => .error e
      | .ok (toEntry, db3) =>
        if arg.fromAccountID < arg.toAccountID then
          match UpdateAccountBalance db3
              ⟨arg.fromAccountID, -arg.amount⟩ with
          | .error e => .error e
          | .ok (fromAccount, db4) =>
            match UpdateAccountBalance db4
                ⟨arg.toAccountID, arg.amount⟩ with
            | .error e => .error e
            | .ok (toAccount, db5) =>
                .ok (⟨transfer, fromAccount, toAccount,
                      fromEntry, toEntry⟩, db5)
        else
          match UpdateAccountBalance db3
              ⟨arg.toAccountID, arg.amount⟩ with
          | .error e => .error e
          | .ok (toAccount, db4) =>
            match UpdateAccountBalance db4
                ⟨arg.fromAccountID, -arg.amount⟩ with
            | .error e => .error e
            | .ok (fromAccount, db5) =>
                .ok (⟨transfer, fromAccount, toAccount,
                      fromEntry, toEntry⟩, db5)

/-- `TransferTx` (store.go:125–205): run `transferTxBody` inside one
`execTx` call. -/
def TransferTx (env : TxEnv) (db : DB) (arg : TransferTxParams) :
    TxOutcome TransferTxResult :=
  execTx env db (transferTxBody arg)

/-- A `TxEnv` in which the transaction infrastructure never fails. -/
def TxEnv.clean : TxEnv := ⟨none, none, none⟩

/-- The database produced by a successful `transferTxBody` run. -/
def transferTxSuccDB (arg : TransferTxParams) (db : DB) : DB :=
  { accounts :=
      if arg.fromAccountID < arg.toAccountID then
        applyDelta (applyDelta db.accounts arg.fromAccountID (-arg.amount))
          arg.toAccountID arg.amount
      else
        applyDelta (applyDelta db.accounts arg.toAccountID arg.amount)
          arg.fromAccountID (-arg.amount),
    entries := db.entries ++
      [⟨db.nextEntryID, arg.fromAccountID, -arg.amount⟩,
       ⟨db.nextEntryID + 1, arg.toAccountID, arg.amount⟩],
    transfers := db.transfers ++
      [⟨db.nextTransferID, arg.fromAccountID, arg.toAccountID, arg.amount⟩],
    nextEntryID := db.nextEntryID + 2,
    nextTransferID := db.nextTransferID + 1,
    touched := db.touched ++
      (if arg.fromAccountID < arg.toAccountID then
        [arg.fromAccountID, arg.toAccountID]
       else
        [arg.toAccountID, arg.fromAccountID]) }

/-- The result value produced by a successful `transferTxBody` run, given
the source row `a` and destination row `b` found before the updates. -/
def transferTxSuccResult (arg : TransferTxParams) (db : DB)
    (a b : Account) : TransferTxResult :=
  { transfer := ⟨db.nextTransferID, arg.fromAccountID, arg.toAccountID,
                 arg.amount⟩,
    fromAccount :=
      if arg.fromAccountID = arg.toAccountID then
        (a.addBal arg.amount).addBal (-arg.amount)
      else
        a.addBal (-arg.amount),
    toAccount := b.addBal arg.amount,
    fromEntry := ⟨db.nextEntryID, arg.fromAccountID, -arg.amount⟩,
    toEntry := ⟨db.nextEntryID + 1, arg.toAccountID, arg.amount⟩ }

/-- Sum of the amounts of all entries referencing account `i` — the
replayable audit log of that account. -/
def entriesSum (entries : List Entry) (i : Int) : Int :=
  ((entries.filter (fun e => e.accountID == i)).map Entry.amount).sum

/-- The core consistency invariant: every account's balance equals its
initial balance plus the sum of all entries referencing it. -/
def balancesMatchLog (init : Int → Int) (db : DB) : Prop :=
  ∀ a ∈ db.accounts, a.balance = init a.id + entriesSum db.entries a.id

instance balancesMatchLogDec (init : Int → Int) (db : DB) :
    Decidable (balancesMatchLog init db) :=
  inferInstanceAs (Decidable (∀ a ∈ db.accounts,
    a.balance = init a.id + entriesSum db.entries a.id))

/-- Run a sequence of transfers; a failed transfer leaves the observable
state unchanged (`execTx` rolls it back), so only the successful ones
contribute. -/
def runTransfers (env : TxEnv) : DB → List TransferTxParams → DB
  | db, [] => db
  | db, p :: ps => runTransfers env (TransferTx env db p).db ps

/-! ## Float64 model (`util/fx.go`)

`ConvertAmount` computes with Go `float64` values.  A binary64 value in
the normal range is an integer `m` times a power of two, and every
arithmetic operation rounds its exact result to 53 significant bits,
ties to even.  We model a float64 as the pair `(m, e)` denoting the
exact dyadic rational `m * 2^e` (overflow and subnormals are far outside
the ranges exercised here), and model each operation by exact integer
arithmetic followed by `roundDyadic`, the round-to-nearest-even rounding
to 53 significant bits.  Everything is integer-level and executable. -/

/-- Fuel-driven ⌊log₂⌋ on `Nat` (structural recursion so that concrete
instances evaluate inside the kernel). -/
def log2fuel : Nat → Nat → Nat
  | 0, _ => 0
  | fuel + 1, n => if n < 2 then 0 else log2fuel fuel (n / 2) + 1

/-- ⌊log₂ n⌋ for `n ≥ 1` (fuel `n` always suffices). -/
def natLog2 (n : Nat) : Nat := log2fuel n n

/-- A float64 value `m * 2^e` (exact dyadic representation). -/
structure F64 where
  m : Int
  e : Int
  deriving Repr, DecidableEq

/-- The exact rational value of a modelled float64. -/
def F64.val (f : F64) : ℚ := (f.m : ℚ) * 2 ^ f.e

/-- Round the nonnegative rational `num / den` to the nearest integer,
ties to even. -/
def roundMant (num den : Nat) : Nat :=
  if 2 * (num % den) < den then num / den
  else if den < 2 * (num % den) then num / den + 1
  else if (num / den) % 2 = 0 then num / den else num / den + 1

/-- Scale the positive rational `P / Q` by a power of two into
`[2^52, 2^53)` and round to the nearest integer, ties to even: returns
`(mant, e)` with `mant * 2^e` the rounded value. -/
def roundScaled (P Q : Nat) : Nat × Int :=
  let e0 : Int := (natLog2 P : Int) - (natLog2 Q : Int) - 52
  let num0 : Nat := P * 2 ^ (-e0).toNat
  let den : Nat := Q * 2 ^ e0.toNat
  if num0 < 2 ^ 52 * den then (roundMant (2 * num0) den, e0 - 1)
  else (roundMant num0 den, e0)

/-- Round the rational `p / q` (`q > 0`) to 53 significant bits, ties to
even — the IEEE-754 binary64 rounding of an exact quotient.  Returns the
dyadic result; `0` maps to `0`. -/
def roundDyadic (p q : Int) : F64 :=
  if p = 0 then ⟨0, 0⟩
  else if (roundScaled p.natAbs q.natAbs).1 = 2 ^ 53 then
    ⟨(if 0 < p then 1 else -1) * 2 ^ 52, (roundScaled p.natAbs q.natAbs).2 + 1⟩
  else
    ⟨(if 0 < p then 1 else -1) * ((roundScaled p.natAbs q.natAbs).1 : Int),
     (roundScaled p.natAbs q.natAbs).2⟩

/-- float64 of an `int64` (conversion rounds to nearest, ties even). -/
def f64ofInt (a : Int) : F64 := roundDyadic a 1

/-- float64 division (correctly rounded). -/
def f64div (x y : F64) : F64 :=
  let r := roundDyadic x.m y.m
  ⟨r.m, r.e + x.e - y.e⟩

/-- float64 multiplication (correctly rounded). -/
def f64mul (x y : F64) : F64 :=
  let r := roundDyadic (x.m * y.m) 1
  ⟨r.m, r.e + x.e + y.e⟩

/-- `int64(math.Round(x))`: round half away from zero to an integer.
(`math.Round` is exact on binary64: values with `e ≥ 0` are already
integral, and the rounded result of a value below `2^53` is exactly
representable.) -/
def mathRoundToInt (f : F64) : Int :=
  if 0 ≤ f.e then f.m * 2 ^ f.e.toNat
  else
    let k : Nat := (-f.e).toNat
    if 0 ≤ f.m then (f.m + 2 ^ (k - 1)) / 2 ^ k
    else -((-f.m + 2 ^ (k - 1)) / 2 ^ k)

/-- `util.FxRateINR`: the fixed table `{INR ↦ 1.0, USD ↦ 83.0,
EUR ↦ 90.0}`; a missing key yields Go's zero value `0.0`.  The three
rates are small integers, exactly representable in float64. -/
def FxRateINR (c : String) : F64 :=
  if c = "INR" then ⟨1, 0⟩
  else if c = "USD" then ⟨83, 0⟩
  else if c = "EUR" then ⟨90, 0⟩
  else ⟨0, 0⟩

/-- `util.ConvertAmount` (fx.go:11–20): fails iff either rate is `0`
(missing table entry); otherwise `rate = from / to` in float64 and
`toAmount = int64(math.Round(float64(amount) * rate))`. -/
def ConvertAmount (amount : Int) (fromCurrency toCurrency : String) :
    Int × F64 × Bool :=
  let fromRate := FxRateINR fromCurrency
  let toRate := FxRateINR toCurrency
  if fromRate.m = 0 ∨ toRate.m = 0 then (0, ⟨0, 0⟩, false)
  else
    let rate := f64div fromRate toRate
    let toAmount := mathRoundToInt (f64mul (f64ofInt amount) rate)
    (toAmount, rate, true)

/-- `util.IsSupportedCurrency`: USD, EUR or INR. -/
def IsSupportedCurrency (currency : String) : Bool :=
  currency == "USD" || currency == "EUR" || currency == "INR"

/-- Round `p / q` (`q > 0`) to the nearest integer, halves away from
zero — exact rational arithmetic, no floating point. -/
def roundRatHalfAway (p q : Int) : Int :=
  if 0 ≤ p then (2 * p + q) / (2 * q) else -((-(2 * p) + q) / (2 * q))

/-- The integer rate table underlying `FxRateINR`. -/
def fxTableInt (c : String) : Int :=
  if c = "INR" then 1
  else if c = "USD" then 83
  else if c = "EUR" then 90
  else 0

/-- The conversion the claim describes, in exact (real/rational)
arithmetic: fail iff a rate is missing, otherwise `amount` times the
source rate over the destination rate, rounded to the nearest whole
minor unit. -/
def ConvertAmountSpec (amount : Int) (fromCurrency toCurrency : String) :
    Int × Bool :=
  let f := fxTableInt fromCurrency
  let t := fxTableInt toCurrency
  if f = 0 ∨ t = 0 then (0, false)
  else (roundRatHalfAway (amount * f) t, true)

/-- Modelled from the spec: the parameter struct of `TransferTxFX`, whose
implementation is not among the provided sources (only its call site in
the API transfer handler is): `(fromAccountID, toAccountID, fromAmount,
toAmount, rate)`.  The informational exchange rate is modelled as an
exact dyadic float64 value (`F64`). -/
structure TransferTxFXParams where
  fromAccountID : Int
  toAccountID : Int
  fromAmount : Int
  toAmount : Int
  rate : F64
  deriving Repr, DecidableEq

/-- Modelled from the spec: the result of a cross-currency transfer —
the transfer row, both entries, both post-update accounts, and the
applied rate (informational only, not separately persisted). -/
structure TransferTxFXResult where
  transfer : Transfer
  fromAccount : Account
  toAccount : Account
  fromEntry : Entry
  toEntry : Entry
  rate : F64
  deriving Repr, DecidableEq

/-- Modelled from the spec: the unit of work of `TransferTxFX` — same
shape as the same-currency body, except the debit entry and source
balance delta use `fromAmount`, the credit entry and destination balance
delta use `toAmount`, and the persisted transfer amount is the
source-currency amount `fromAmount`; balances are updated in ascending
account-id order. -/
def transferTxFXBody (arg : TransferTxFXParams) (db : DB) :
    Except String (TransferTxFXResult × DB) :=
  match CreateTransfer db
      ⟨arg.fromAccountID, arg.toAccountID, arg.fromAmount⟩ with
  | .error e => .error e
  | .ok (transfer, db1) =>
    match CreateEntry db1 ⟨arg.fromAccountID, -arg.fromAmount⟩ with
    | .error e => .error e
    | .ok (fromEntry, db2) =>
      match CreateEntry db2 ⟨arg.toAccountID, arg.toAmount⟩ with
      | .error e => .error e
      | .ok (toEntry, db3) =>
        if arg.fromAccountID < arg.toAccountID then
          match UpdateAccountBalance db3
              ⟨arg.fromAccountID, -arg.fromAmount⟩ with
          | .error e => .error e
          | .ok (fromAccount, db4) =>
            match UpdateAccountBalance db4
                ⟨arg.toAccountID, arg.toAmount⟩ with
            | .error e => .error e
            | .ok (toAccount, db5) =>
                .ok (⟨transfer, fromAccount, toAccount,
                      fromEntry, toEntry, arg.rate⟩, db5)
        else
          match UpdateAccountBalance db3
              ⟨arg.toAccountID, arg.toAmount⟩ with
          | .error e => .error e
          | .ok (toAccount, db4) =>
            match UpdateAccountBalance db4
                ⟨arg.fromAccountID, -arg.fromAmount⟩ with
            | .error e => .error e
            | .ok (fromAccount, db5) =>
                .ok (⟨transfer, fromAccount, toAccount,
                      fromEntry, toEntry, arg.rate⟩, db5)

/-- Modelled from the spec: `TransferTxFX` runs its unit of work inside
one `execTx` call, exactly like the same-currency `TransferTx`. -/
def TransferTxFX (env : TxEnv) (db : DB) (arg : TransferTxFXParams) :
    TxOutcome TransferTxFXResult :=
  execTx env db (transferTxFXBody arg)

/-- The database produced by a successful `transferTxFXBody` run. -/
def transferTxFXSuccDB (arg : TransferTxFXParams) (db : DB) : DB :=
  { accounts :=
      if arg.fromAccountID < arg.toAccountID then
        applyDelta (applyDelta db.accounts arg.fromAccountID
          (-arg.fromAmount)) arg.toAccountID arg.toAmount
      else
        applyDelta (applyDelta db.accounts arg.toAccountID arg.toAmount)
          arg.fromAccountID (-arg.fromAmount),
    entries := db.entries ++
      [⟨db.nextEntryID, arg.fromAccountID, -arg.fromAmount⟩,
       ⟨db.nextEntryID + 1, arg.toAccountID, arg.toAmount⟩],
    transfers := db.transfers ++
      [⟨db.nextTransferID, arg.fromAccountID, arg.toAccountID,
        arg.fromAmount⟩],
    nextEntryID := db.nextEntryID + 2,
    nextTransferID := db.nextTransferID + 1,
    touched := db.touched ++
      (if arg.fromAccountID < arg.toAccountID then
        [arg.fromAccountID, arg.toAccountID]
       else
        [arg.toAccountID, arg.fromAccountID]) }

/-- The result value produced by a successful `transferTxFXBody` run. -/
def transferTxFXSuccResult (arg : TransferTxFXParams) (db : DB)
    (a b : Account) : TransferTxFXResult :=
  { transfer := ⟨db.nextTransferID, arg.fromAccountID, arg.toAccountID,
                 arg.fromAmount⟩,
    fromAccount :=
      if arg.fromAccountID = arg.toAccountID then
        (a.addBal arg.toAmount).addBal (-arg.fromAmount)
      else
        a.addBal (-arg.fromAmount),
    toAccount := b.addBal arg.toAmount,
    fromEntry := ⟨db.nextEntryID, arg.fromAccountID, -arg.fromAmount⟩,
    toEntry := ⟨db.nextEntryID + 1, arg.toAccountID, arg.toAmount⟩,
    rate := arg.rate }

/-! ## API transfer handler (`api` package, `createTransfer`) -/

/-- The JSON request binding of `POST /transfers`: ids `min=1`, amount
`gt=0`, optional currency (must be a supported currency when present),
optional recipient username. -/
structure transferRequest where
  fromAccountID : Int
  toAccountID : Int
  amount : Int
  currency : String
  toUsername : String
  deriving Repr, DecidableEq

/-- The handler's possible HTTP outcomes. -/
inductive TransferResponse where
  | badRequest (msg : String)
  | notFound
  | unauthorized
  | internalError
  | okSame (r : TransferTxResult)
  | okFX (r : TransferTxFXResult)
  deriving Repr, DecidableEq

/-- gin binding validation of `transferRequest`: `required,min=1` on both
ids, `required,gt=0` on amount, `omitempty,currency` on currency. -/
def bindTransferRequest (req : transferRequest) : Bool :=
  decide (1 ≤ req.fromAccountID) && decide (1 ≤ req.toAccountID) &&
  decide (0 < req.amount) &&
  (req.currency == "" || IsSupportedCurrency req.currency)

/-- `createTransfer` handler: bind the request; load and authorize the
source account (owner must be the authenticated user); optional currency
and recipient-username checks; then the same-currency `TransferTx` path
or the convert-then-`TransferTxFX` path.  `GetAccount` misses map to 404;
a transaction error maps to 500 with the (rolled-back) state. -/
def createTransfer (env : TxEnv) (db : DB) (authUsername : String)
    (req : transferRequest) : TransferResponse × DB :=
  if bindTransferRequest req = false then (.badRequest "binding", db)
  else
    match findAccount db req.fromAccountID with
    | none => (.notFound, db)
    | some fromAccount =>
      if fromAccount.owner ≠ authUsername then (.unauthorized, db)
      else if req.currency ≠ "" ∧ fromAccount.currency ≠ req.currency then
        (.badRequest "source account currency mismatch", db)
      else
        match findAccount db req.toAccountID with
        | none => (.notFound, db)
        | some toAccount =>
          if req.toUsername ≠ "" ∧ toAccount.owner ≠ req.toUsername then
            (.badRequest "recipient username does not match", db)
          else if fromAccount.currency = toAccount.currency then
            match TransferTx env db
                ⟨req.fromAccountID, req.toAccountID, req.amount⟩ with
            | ⟨db2, .ok r, _⟩ => (.okSame r, db2)
            | ⟨db2, .error _, _⟩ => (.internalError, db2)
          else
            match ConvertAmount req.amount fromAccount.currency
                toAccount.currency with
            | (toAmount, rate, ok) =>
              if ok = false then
                (.badRequest "unsupported currency conversion", db)
              else if toAmount ≤ 0 then
                (.badRequest "amount too small for conversion", db)
              else
                match TransferTxFX env db
                    ⟨req.fromAccountID, req.toAccountID, req.amount,
                     toAmount, rate⟩ with
                | ⟨db2, .ok r, _⟩ => (.okFX r, db2)
                | ⟨db2, .error _, _⟩ => (.internalError, db2)

/-! ## Basic lemmas about the store primitives -/

@[simp]
theorem Account.id_addBal (a : Account) (d : Int) : (a.addBal d).id = a.id := rfl

@[simp]
theorem Account.balance_addBal (a : Account) (d : Int) :
    (a.addBal d).balance = a.balance + d := rfl

theorem find?_applyDelta (l : List Account) (i d j : Int) :
    (applyDelta l i d).find? (fun a => a.id == j) =
      (l.find? (fun a => a.id == j)).map
        (fun a => if a.id == i then a.addBal d else a) := by
  have hp : ((fun a : Account => a.id == j) ∘
      (fun a : Account => if a.id == i then a.addBal d else a)) =
      (fun a : Account => a.id == j) := by
    funext a
    by_cases h : a.id = i <;> simp [h]
  unfold applyDelta
  rw [List.find?_map, hp]

/-- Characterization of a successful transfer body: when both accounts
exist, `transferTxBody` succeeds and produces exactly the rows and state
described by `transferTxSuccResult` and `transferTxSuccDB`. -/
theorem transferTxBody_ok (arg : TransferTxParams) (db : DB)
    (a b : Account)
    (ha : findAccount db arg.fromAccountID = some a)
    (hb : findAccount db arg.toAccountID = some b) :
    transferTxBody arg db =
      .ok (transferTxSuccResult arg db a b, transferTxSuccDB arg db) := by
  have ha0 : db.accounts.find? (fun x => x.id == arg.fromAccountID) = some a := ha
  have hb0 : db.accounts.find? (fun x => x.id == arg.toAccountID) = some b := hb
  have haid' : a.id = arg.fromAccountID := by simpa using List.find?_some ha0
  have hbid' : b.id = arg.toAccountID := by simpa using List.find?_some hb0
  unfold transferTxBody CreateTransfer CreateEntry
  simp only [findAccount] at ha hb ⊢
  by_cases hlt : arg.fromAccountID < arg.toAccountID
  · have hne : arg.fromAccountID ≠ arg.toAccountID := ne_of_lt hlt
    simp only [ha, hb, Option.isSome_some, Bool.and_self, if_true, hlt,
      UpdateAccountBalance, findAccount, find?_applyDelta, Option.map_some]
    simp [hbid', transferTxSuccResult, transferTxSuccDB, hlt,
      if_neg hne, if_neg (Ne.symm hne), Account.addBal]
    omega
  · simp only [ha, hb, Option.isSome_some, Bool.and_self, if_true, hlt,
      UpdateAccountBalance, findAccount, find?_applyDelta, Option.map_some]
    by_cases heq : arg.fromAccountID = arg.toAccountID
    · simp [haid', transferTxSuccResult, transferTxSuccDB, hlt,
        if_pos heq, heq, Account.addBal]
      omega
    · simp [haid', transferTxSuccResult, transferTxSuccDB, hlt,
        if_neg heq, Account.addBal]
      omega

theorem transferTxBody_err_from (arg : TransferTxParams) (db : DB)
    (hfa : findAccount db arg.fromAccountID = none) :
    transferTxBody arg db = .error "foreign key violation" := by
  unfold transferTxBody CreateTransfer
  simp [hfa]

theorem transferTxBody_err_to (arg : TransferTxParams) (db : DB)
    (hfb : findAccount db arg.toAccountID = none) :
    transferTxBody arg db = .error "foreign key violation" := by
  unfold transferTxBody CreateTransfer
  simp [hfb]

/-- Whenever `execTx` reports an error — begin failure, unit-of-work
failure (with or without rollback failure), or commit failure — the
observable database state is exactly the input state. -/
theorem execTx_error_db {α : Type} (env : TxEnv) (db : DB)
    (fn : DB → Except String (α × DB)) (e : String)
    (h : (execTx env db fn).result = .error e) :
    (execTx env db fn).db = db := by
  cases hbe : env.beginErr with
  | some e0 => simp [execTx, hbe]
  | none =>
    cases hfn : fn db with
    | error e0 =>
      cases hrb : env.rollbackErr <;> simp [execTx, hbe, hfn, hrb]
    | ok p =>
      obtain ⟨a, db2⟩ := p
      cases hce : env.commitErr with
      | some ce => simp [execTx, hbe, hfn, hce]
      | none =>
        exfalso
        simp [execTx, hbe, hfn, hce] at h

/-- Elimination principle for a successful `TransferTx`: success implies
the infrastructure did not fail, both accounts existed beforehand, and
the result and final state are exactly the characterized ones. -/
theorem TransferTx_ok_elim (env : TxEnv) (db : DB) (arg : TransferTxParams)
    (r : TransferTxResult)
    (h : (TransferTx env db arg).result = .ok r) :
    env.beginErr = none ∧ env.commitErr = none ∧
    ∃ a b, findAccount db arg.fromAccountID = some a ∧
      findAccount db arg.toAccountID = some b ∧
      r = transferTxSuccResult arg db a b ∧
      (TransferTx env db arg).db = transferTxSuccDB arg db := by
  cases hbe : env.beginErr with
  | some e =>
    exfalso
    unfold TransferTx execTx at h
    rw [hbe] at h
    simp at h
  | none =>
    cases hfa : findAccount db arg.fromAccountID with
    | none =>
      exfalso
      unfold TransferTx execTx at h
      rw [hbe, transferTxBody_err_from arg db hfa] at h
      cases hrb : env.rollbackErr <;> rw [hrb] at h <;> simp at h
    | some a =>
      cases hfb : findAccount db arg.toAccountID with
      | none =>
        exfalso
        unfold TransferTx execTx at h
        rw [hbe, transferTxBody_err_to arg db hfb] at h
        cases hrb : env.rollbackErr <;> rw [hrb] at h <;> simp at h
      | some b =>
        have hbody := transferTxBody_ok arg db a b hfa hfb
        cases hce : env.commitErr with
        | some ce =>
          exfalso
          unfold TransferTx execTx at h
          rw [hbe, hbody, hce] at h
          simp at h
        | none =>
          unfold TransferTx execTx at h ⊢
          rw [hbe, hbody, hce] at h ⊢
          simp only [Except.ok.injEq] at h
          exact ⟨rfl, rfl, a, b, rfl, rfl, h.symm, rfl⟩

/-- The row returned by `findAccount db i` has id `i`. -/
theorem findAccount_id {db : DB} {i : Int} {a : Account}
    (h : findAccount db i = some a) : a.id = i := by
  have h0 : db.accounts.find? (fun c => c.id == i) = some a := h
  simpa using List.find?_some h0

/-- `findAccount` only reads the `accounts` table: ghost-trace updates do
not affect it. -/
theorem findAccount_set_touched (db : DB) (t : List Int) (i : Int) :
    findAccount { db with touched := t } i = findAccount db i := rfl

/-- Balance-lookup characterization of the post-transfer state: every
account's balance picks up `-amount` if it is the source row and
`+amount` if it is the destination row (both, netting zero, for a
self-transfer); rows are otherwise untouched. -/
theorem findAccount_transferTxSuccDB (arg : TransferTxParams) (db : DB)
    (x : Int) :
    findAccount (transferTxSuccDB arg db) x =
      (findAccount db x).map (fun c =>
        c.addBal ((if c.id = arg.fromAccountID then -arg.amount else 0) +
                  (if c.id = arg.toAccountID then arg.amount else 0))) := by
  have key : ∀ (l : List Account) (i1 d1 i2 d2 : Int),
      (applyDelta (applyDelta l i1 d1) i2 d2).find? (fun a => a.id == x) =
        (l.find? (fun a => a.id == x)).map
          (fun c => c.addBal ((if c.id = i1 then d1 else 0) +
                              (if c.id = i2 then d2 else 0))) := by
    intro l i1 d1 i2 d2
    rw [find?_applyDelta, find?_applyDelta, Option.map_map]
    cases hfo : l.find? (fun a => a.id == x) with
    | none => rfl
    | some c =>
      simp only [Option.map_some', Function.comp]
      obtain ⟨cid, cow, cbal, ccur⟩ := c
      by_cases h1 : cid = i1 <;> by_cases h2 : cid = i2
      · simp [Account.addBal, h1, h2, h1.symm.trans h2] <;> omega
      · simp [Account.addBal, h1, h2,
          (show i1 ≠ i2 from fun hh => h2 (h1.trans hh))] <;> omega
      · simp [Account.addBal, h1, h2,
          (show i2 ≠ i1 from fun hh => h1 (h2.trans hh))] <;> omega
      · simp [Account.addBal, h1, h2] <;> omega
  by_cases hlt : arg.fromAccountID < arg.toAccountID
  · simp only [findAccount, transferTxSuccDB, if_pos hlt]
    rw [key]
  · simp only [findAccount, transferTxSuccDB, if_neg hlt]
    rw [key]
    cases hfo : db.accounts.find? (fun a => a.id == x) with
    | none => rfl
    | some c =>
      simp only [Option.map_some', Option.some.injEq]
      obtain ⟨cid, cow, cbal, ccur⟩ := c
      by_cases h1 : cid = arg.fromAccountID <;>
        by_cases h2 : cid = arg.toAccountID
      · simp [Account.addBal, h1, h2, h1.symm.trans h2] <;> omega
      · simp [Account.addBal, h1, h2,
          (show arg.fromAccountID ≠ arg.toAccountID from
            fun hh => h2 (h1.trans hh))] <;> omega
      · simp [Account.addBal, h1, h2,
          (show arg.toAccountID ≠ arg.fromAccountID from
            fun hh => h1 (h2.trans hh))] <;> omega
      · simp [Account.addBal, h1, h2] <;> omega

/-- C1 — Conservation of money: a successful same-currency transfer
between two distinct accounts debits the source by exactly `amount`,
credits the destination by exactly `amount`, and therefore preserves the
sum of the two balances. -/
theorem transferTx_conservation (env : TxEnv) (db : DB)
    (arg : TransferTxParams) (r : TransferTxResult) (a b : Account)
    (hne : arg.fromAccountID ≠ arg.toAccountID)
    (_hcur : a.currency = b.currency)
    (ha : findAccount db arg.fromAccountID = some a)
    (hb : findAccount db arg.toAccountID = some b)
    (h : (TransferTx env db arg).result = .ok r) :
    ∃ a' b',
      findAccount (TransferTx env db arg).db arg.fromAccountID = some a' ∧
      findAccount (TransferTx env db arg).db arg.toAccountID = some b' ∧
      a'.balance = a.balance - arg.amount ∧
      b'.balance = b.balance + arg.amount ∧
      a'.balance + b'.balance = a.balance + b.balance := by
  obtain ⟨-, -, a0, b0, ha0, hb0, -, hdb⟩ := TransferTx_ok_elim env db arg r h
  have haid : a.id = arg.fromAccountID := findAccount_id ha
  have hbid : b.id = arg.toAccountID := findAccount_id hb
  rw [hdb]
  refine ⟨a.addBal (-arg.amount), b.addBal arg.amount, ?_, ?_, ?_, ?_, ?_⟩
  · rw [findAccount_transferTxSuccDB, ha]
    simp [haid, hne]
  · rw [findAccount_transferTxSuccDB, hb]
    simp [hbid, Ne.symm hne]
  · simp only [Account.balance_addBal]
    omega
  · simp only [Account.balance_addBal]
  · simp only [Account.balance_addBal]
    omega

/-- Witness for C1: transferring 150 between accounts 1 (balance 1000)
and 2 (balance 500) yields balances 850 and 650, preserving the sum. -/
theorem transferTx_conservation_witness :
    ∃ a' b',
      findAccount (TransferTx TxEnv.clean
        ⟨[⟨1, "alice", 1000, "INR"⟩, ⟨2, "bob", 500, "INR"⟩],
         [], [], 1, 1, []⟩ ⟨1, 2, 150⟩).db 1 = some a' ∧
      findAccount (TransferTx TxEnv.clean
        ⟨[⟨1, "alice", 1000, "INR"⟩, ⟨2, "bob", 500, "INR"⟩],
         [], [], 1, 1, []⟩ ⟨1, 2, 150⟩).db 2 = some b' ∧
      a'.balance = 1000 - 150 ∧
      b'.balance = 500 + 150 ∧
      a'.balance + b'.balance = 1000 + 500 :=
  transferTx_conservation TxEnv.clean
    ⟨[⟨1, "alice", 1000, "INR"⟩, ⟨2, "bob", 500, "INR"⟩], [], [], 1, 1, []⟩
    ⟨1, 2, 150⟩ _ ⟨1, "alice", 1000, "INR"⟩ ⟨2, "bob", 500, "INR"⟩
    (by decide) rfl rfl rfl rfl

/-- C2 — A successful same-currency transfer between two distinct
accounts appends exactly one transfer row `(from, to, amount)`, exactly
one source entry with amount `-amount` and one destination entry with
amount `+amount`, and returns those rows together with the post-update
snapshots of both accounts. -/
theorem transferTx_records (env : TxEnv) (db : DB)
    (arg : TransferTxParams) (r : TransferTxResult) (a b : Account)
    (hpos : 0 < arg.amount)
    (hne : arg.fromAccountID ≠ arg.toAccountID)
    (ha : findAccount db arg.fromAccountID = some a)
    (hb : findAccount db arg.toAccountID = some b)
    (h : (TransferTx env db arg).result = .ok r) :
    (TransferTx env db arg).db.transfers = db.transfers ++
      [⟨db.nextTransferID, arg.fromAccountID, arg.toAccountID,
        arg.amount⟩] ∧
    (TransferTx env db arg).db.entries = db.entries ++
      [⟨db.nextEntryID, arg.fromAccountID, -arg.amount⟩,
       ⟨db.nextEntryID + 1, arg.toAccountID, arg.amount⟩] ∧
    r.transfer = ⟨db.nextTransferID, arg.fromAccountID, arg.toAccountID,
      arg.amount⟩ ∧
    r.fromEntry = ⟨db.nextEntryID, arg.fromAccountID, -arg.amount⟩ ∧
    r.toEntry = ⟨db.nextEntryID + 1, arg.toAccountID, arg.amount⟩ ∧
    findAccount (TransferTx env db arg).db arg.fromAccountID =
      some r.fromAccount ∧
    findAccount (TransferTx env db arg).db arg.toAccountID =
      some r.toAccount ∧
    r.fromAccount.balance = a.balance - arg.amount ∧
    r.toAccount.balance = b.balance + arg.amount := by
  obtain ⟨-, -, a0, b0, ha0, hb0, hr, hdb⟩ := TransferTx_ok_elim env db arg r h
  rw [ha] at ha0
  rw [hb] at hb0
  obtain rfl : a = a0 := Option.some.inj ha0
  obtain rfl : b = b0 := Option.some.inj hb0
  have haid : a.id = arg.fromAccountID := findAccount_id ha
  have hbid : b.id = arg.toAccountID := findAccount_id hb
  subst hr
  rw [hdb]
  refine ⟨rfl, rfl, rfl, rfl, rfl, ?_, ?_, ?_, ?_⟩
  · rw [findAccount_transferTxSuccDB, ha]
    simp [haid, hne, transferTxSuccResult]
  · rw [findAccount_transferTxSuccDB, hb]
    simp [hbid, Ne.symm hne, transferTxSuccResult]
  · simp only [transferTxSuccResult, if_neg hne, Account.balance_addBal]
    omega
  · simp only [transferTxSuccResult, Account.balance_addBal]

/-- Witness for C2, the spec's concrete scenario: A (id 1) with balance
1000 and B (id 2) with balance 500, both currency INR; transferring 150
produces transfer row {from 1, to 2, amount 150}, entry rows (1, -150)
and (2, +150), and balances 850 and 650. -/
theorem transferTx_records_witness :
    (TransferTx TxEnv.clean
      ⟨[⟨1, "alice", 1000, "INR"⟩, ⟨2, "bob", 500, "INR"⟩],
       [], [], 1, 1, []⟩ ⟨1, 2, 150⟩).db.transfers =
        [⟨1, 1, 2, 150⟩] ∧
    (TransferTx TxEnv.clean
      ⟨[⟨1, "alice", 1000, "INR"⟩, ⟨2, "bob", 500, "INR"⟩],
       [], [], 1, 1, []⟩ ⟨1, 2, 150⟩).db.entries =
        [⟨1, 1, -150⟩, ⟨2, 2, 150⟩] ∧
    ∃ r, (TransferTx TxEnv.clean
      ⟨[⟨1, "alice", 1000, "INR"⟩, ⟨2, "bob", 500, "INR"⟩],
       [], [], 1, 1, []⟩ ⟨1, 2, 150⟩).result = .ok r ∧
      r.fromAccount.balance = 850 ∧ r.toAccount.balance = 650 := by
  have h := transferTx_records TxEnv.clean
    ⟨[⟨1, "alice", 1000, "INR"⟩, ⟨2, "bob", 500, "INR"⟩], [], [], 1, 1, []⟩
    ⟨1, 2, 150⟩ (transferTxSuccResult ⟨1, 2, 150⟩
      ⟨[⟨1, "alice", 1000, "INR"⟩, ⟨2, "bob", 500, "INR"⟩], [], [], 1, 1, []⟩
      ⟨1, "alice", 1000, "INR"⟩ ⟨2, "bob", 500, "INR"⟩)
    ⟨1, "alice", 1000, "INR"⟩ ⟨2, "bob", 500, "INR"⟩
    (by decide) (by decide) rfl rfl rfl
  exact ⟨h.1, h.2.1, _, rfl, by decide, by decide⟩

/-- C3 — Atomicity: whenever `TransferTx` reports an error (any failing
step, or a begin/commit failure), the observable database state equals
the pre-call state exactly: no transfer row, entry row, or balance
change from the aborted attempt is visible. -/
theorem transferTx_atomicity (env : TxEnv) (db : DB)
    (arg : TransferTxParams) (e : String)
    (h : (TransferTx env db arg).result = .error e) :
    (TransferTx env db arg).db = db :=
  execTx_error_db env db (transferTxBody arg) e h

/-- Witness for C3: transferring between accounts absent from an empty
store fails with a constraint violation and leaves the store unchanged. -/
theorem transferTx_atomicity_witness :
    (TransferTx TxEnv.clean ⟨[], [], [], 1, 1, []⟩ ⟨1, 2, 50⟩).result =
      .error "foreign key violation" ∧
    (TransferTx TxEnv.clean ⟨[], [], [], 1, 1, []⟩ ⟨1, 2, 50⟩).db =
      ⟨[], [], [], 1, 1, []⟩ :=
  ⟨rfl, transferTx_atomicity TxEnv.clean ⟨[], [], [], 1, 1, []⟩ ⟨1, 2, 50⟩
    "foreign key violation" rfl⟩

/-- C10 — Self-transfer: a successful `TransferTx(id, id, amount)` leaves
the account row (in particular its balance) unchanged — the `+amount` and
`-amount` deltas are both applied to the same row in the non-ascending
branch, netting zero — while still appending one transfer row
`(id, id, amount)` and two entry rows with amounts `-amount` and
`+amount`; the (total) function terminates on this input, touching the
same row twice. -/
theorem transferTx_self (env : TxEnv) (db : DB) (id amt : Int)
    (r : TransferTxResult) (a : Account)
    (ha : findAccount db id = some a)
    (h : (TransferTx env db ⟨id, id, amt⟩).result = .ok r) :
    findAccount (TransferTx env db ⟨id, id, amt⟩).db id = some a ∧
    (TransferTx env db ⟨id, id, amt⟩).db.transfers = db.transfers ++
      [⟨db.nextTransferID, id, id, amt⟩] ∧
    (TransferTx env db ⟨id, id, amt⟩).db.entries = db.entries ++
      [⟨db.nextEntryID, id, -amt⟩, ⟨db.nextEntryID + 1, id, amt⟩] ∧
    (TransferTx env db ⟨id, id, amt⟩).db.touched = db.touched ++
      [id, id] := by
  obtain ⟨-, -, a0, b0, ha0, hb0, -, hdb⟩ :=
    TransferTx_ok_elim env db ⟨id, id, amt⟩ r h
  have haid : a.id = id := findAccount_id ha
  rw [hdb]
  refine ⟨?_, rfl, rfl, ?_⟩
  · rw [findAccount_transferTxSuccDB, ha]
    obtain ⟨cid, cow, cbal, ccur⟩ := a
    simp only [Option.map_some', Option.some.injEq] at haid ⊢
    simp [Account.addBal, haid]
  · simp [transferTxSuccDB, lt_irrefl]

/-- Witness for C10: a self-transfer of 150 on account 1 leaves its
balance at 1000 and creates the transfer and the two entries. -/
theorem transferTx_self_witness :
    findAccount (TransferTx TxEnv.clean
      ⟨[⟨1, "alice", 1000, "INR"⟩], [], [], 1, 1, []⟩ ⟨1, 1, 150⟩).db 1 =
      some ⟨1, "alice", 1000, "INR"⟩ ∧
    (TransferTx TxEnv.clean
      ⟨[⟨1, "alice", 1000, "INR"⟩], [], [], 1, 1, []⟩ ⟨1, 1, 150⟩).db.transfers =
      [⟨1, 1, 1, 150⟩] ∧
    (TransferTx TxEnv.clean
      ⟨[⟨1, "alice", 1000, "INR"⟩], [], [], 1, 1, []⟩ ⟨1, 1, 150⟩).db.entries =
      [⟨1, 1, -150⟩, ⟨2, 1, 150⟩] ∧
    (TransferTx TxEnv.clean
      ⟨[⟨1, "alice", 1000, "INR"⟩], [], [], 1, 1, []⟩ ⟨1, 1, 150⟩).db.touched =
      [1, 1] :=
  transferTx_self TxEnv.clean
    ⟨[⟨1, "alice", 1000, "INR"⟩], [], [], 1, 1, []⟩ 1 150 _
    ⟨1, "alice", 1000, "INR"⟩ rfl rfl

/-- C4 — Deadlock-avoidance lock ordering: for two distinct account ids
the transfer path write-locks/updates the two rows in ascending numeric
id order, independently of which account is the semantic source:
`addAccountsForUpdate` produces identical behaviour (including its ghost
lock trace) for `(a, b)` and `(b, a)`, locking `min` before `max`, and a
successful `TransferTx` updates the two rows in the order
`[min a b, max a b]` regardless of direction. -/
theorem transfer_lock_order (a b : Int) (hne : a ≠ b) :
    (∀ db : DB, addAccountsForUpdate db a b = addAccountsForUpdate db b a) ∧
    (∀ (db db' : DB) (acc1 acc2 : Account),
      addAccountsForUpdate db a b = .ok (acc1, acc2, db') →
      db'.touched = db.touched ++ [min a b, max a b]) ∧
    (∀ (env : TxEnv) (db : DB) (amt : Int) (r : TransferTxResult),
      (TransferTx env db ⟨a, b, amt⟩).result = .ok r →
      (TransferTx env db ⟨a, b, amt⟩).db.touched =
        db.touched ++ [min a b, max a b]) := by
  have horder : ∀ db : DB,
      addAccountsForUpdate db a b =
        addAccountsForUpdate db (min a b) (max a b) := by
    intro db
    rcases hne.lt_or_lt with hab | hab
    · rw [min_eq_left hab.le, max_eq_right hab.le]
    · unfold addAccountsForUpdate
      rw [min_eq_right hab.le, max_eq_left hab.le]
      rw [if_pos hab, if_neg (not_lt.mpr hab.le)]
  refine ⟨?_, ?_, ?_⟩
  · intro db
    rcases hne.lt_or_lt with hab | hab
    · unfold addAccountsForUpdate
      rw [if_neg (not_lt.mpr hab.le), if_pos hab]
    · unfold addAccountsForUpdate
      rw [if_pos hab, if_neg (not_lt.mpr hab.le)]
  · intro db db' acc1 acc2 hrun
    rw [horder] at hrun
    have hmm : ¬ (min a b > max a b) := not_lt.mpr min_le_max
    cases hf1 : findAccount db (min a b) with
    | none =>
      exfalso
      simp [addAccountsForUpdate, getAccountForUpdate, hmm, hf1,
        findAccount_set_touched] at hrun
    | some x =>
      cases hf2 : findAccount db (max a b) with
      | none =>
        exfalso
        simp [addAccountsForUpdate, getAccountForUpdate, hmm, hf1, hf2,
          findAccount_set_touched] at hrun
      | some y =>
        simp only [addAccountsForUpdate, getAccountForUpdate, if_neg hmm,
          findAccount_set_touched, hf1, hf2, Except.ok.injEq,
          Prod.mk.injEq] at hrun
        rw [← hrun.2.2]
        simp
  · intro env db amt r hrun
    obtain ⟨-, -, a0, b0, -, -, -, hdb⟩ :=
      TransferTx_ok_elim env db ⟨a, b, amt⟩ r hrun
    rw [hdb]
    rcases hne.lt_or_lt with hab | hab
    · simp only [transferTxSuccDB, if_pos hab]
      rw [min_eq_left hab.le, max_eq_right hab.le]
    · simp only [transferTxSuccDB]
      rw [if_neg (by simpa using not_lt.mpr hab.le)]
      rw [min_eq_right hab.le, max_eq_left hab.le]

/-- Witness for C4: with accounts 1 and 2 present, `addAccountsForUpdate`
treats `(2, 1)` and `(1, 2)` identically, and a transfer from 2 to 1
still updates row 1 before row 2. -/
theorem transfer_lock_order_witness :
    addAccountsForUpdate
      ⟨[⟨1, "alice", 1000, "INR"⟩, ⟨2, "bob", 500, "INR"⟩], [], [], 1, 1, []⟩
      2 1 =
    addAccountsForUpdate
      ⟨[⟨1, "alice", 1000, "INR"⟩, ⟨2, "bob", 500, "INR"⟩], [], [], 1, 1, []⟩
      1 2 ∧
    (TransferTx TxEnv.clean
      ⟨[⟨1, "alice", 1000, "INR"⟩, ⟨2, "bob", 500, "INR"⟩], [], [], 1, 1, []⟩
      ⟨2, 1, 150⟩).db.touched = [1, 2] := by
  have h := transfer_lock_order 2 1 (by decide)
  refine ⟨h.1 _, ?_⟩
  have h3 := h.2.2 TxEnv.clean
    ⟨[⟨1, "alice", 1000, "INR"⟩, ⟨2, "bob", 500, "INR"⟩], [], [], 1, 1, []⟩
    150 _ rfl
  rw [h3]
  decide

/-- C5 — `execTx` contract: at most one transaction is begun per call
(exactly one whenever `BeginTx` succeeds, and a begin failure is
propagated); if the unit of work fails and rollback succeeds the
original error is returned unchanged; if rollback also fails the
returned error is the `"tx err: …, rb err: …"` combination, which
contains both the original and the rollback error verbatim; if the unit
of work succeeds the transaction is committed — its state becomes
observable and its value is returned — and a commit failure is
propagated. -/
theorem execTx_contract {α : Type} (env : TxEnv) (db : DB)
    (fn : DB → Except String (α × DB)) :
    ((execTx env db fn).events.count TxEvent.begin ≤ 1 ∧
     (env.beginErr = none →
       (execTx env db fn).events.count TxEvent.begin = 1)) ∧
    (∀ e, env.beginErr = some e → (execTx env db fn).result = .error e) ∧
    (∀ e, env.beginErr = none → fn db = .error e →
      env.rollbackErr = none →
      (execTx env db fn).result = .error e ∧
      (execTx env db fn).events = [TxEvent.begin, TxEvent.rollback]) ∧
    (∀ e rb, env.beginErr = none → fn db = .error e →
      env.rollbackErr = some rb →
      (execTx env db fn).result =
        .error ("tx err: " ++ e ++ ", rb err: " ++ rb) ∧
      e.data <:+: ("tx err: " ++ e ++ ", rb err: " ++ rb).data ∧
      rb.data <:+: ("tx err: " ++ e ++ ", rb err: " ++ rb).data) ∧
    (∀ a db2, env.beginErr = none → fn db = .ok (a, db2) →
      env.commitErr = none →
      (execTx env db fn).result = .ok a ∧
      (execTx env db fn).db = db2 ∧
      (execTx env db fn).events = [TxEvent.begin, TxEvent.commit]) ∧
    (∀ a db2 ce, env.beginErr = none → fn db = .ok (a, db2) →
      env.commitErr = some ce →
      (execTx env db fn).result = .error ce ∧
      (execTx env db fn).db = db) := by
  refine ⟨⟨?_, ?_⟩, ?_, ?_, ?_, ?_, ?_⟩
  · cases hbe : env.beginErr with
    | some e => simp [execTx, hbe]
    | none =>
      cases hfn : fn db with
      | error e =>
        cases hrb : env.rollbackErr <;>
          simp [execTx, hbe, hfn, hrb, List.count_cons]
      | ok p =>
        obtain ⟨a, db2⟩ := p
        cases hce : env.commitErr <;>
          simp [execTx, hbe, hfn, hce, List.count_cons]
  · intro hbe
    cases hfn : fn db with
    | error e =>
      cases hrb : env.rollbackErr <;>
        simp [execTx, hbe, hfn, hrb, List.count_cons]
    | ok p =>
      obtain ⟨a, db2⟩ := p
      cases hce : env.commitErr <;>
        simp [execTx, hbe, hfn, hce, List.count_cons]
  · intro e hbe
    simp [execTx, hbe]
  · intro e hbe hfn hrb
    simp [execTx, hbe, hfn, hrb]
  · intro e rb hbe hfn hrb
    refine ⟨by simp [execTx, hbe, hfn, hrb], ?_, ?_⟩
    · exact ⟨"tx err: ".data, (", rb err: " ++ rb).data,
        by simp [String.data_append]⟩
    · exact ⟨("tx err: " ++ e ++ ", rb err: ").data, [],
        by simp [String.data_append]⟩
  · intro a db2 hbe hfn hce
    simp [execTx, hbe, hfn, hce]
  · intro a db2 ce hbe hfn hce
    simp [execTx, hbe, hfn, hce]

/-- Witness for C5: with a failing unit of work and a failing rollback,
`execTx` returns the combined error containing both messages; with a
clean environment the begin event happens exactly once. -/
theorem execTx_contract_witness :
    (execTx (α := Unit) ⟨none, some "rb failed", none⟩
        ⟨[], [], [], 1, 1, []⟩ (fun _ => .error "boom")).result =
      .error "tx err: boom, rb err: rb failed" ∧
    (execTx (α := Unit) ⟨none, some "rb failed", none⟩
        ⟨[], [], [], 1, 1, []⟩
        (fun _ => .error "boom")).events.count TxEvent.begin = 1 := by
  have h := execTx_contract (α := Unit) ⟨none, some "rb failed", none⟩
    ⟨[], [], [], 1, 1, []⟩ (fun _ => .error "boom")
  exact ⟨(h.2.2.2.1 "boom" "rb failed" rfl rfl rfl).1, h.1.2 rfl⟩

theorem entriesSum_append (l1 l2 : List Entry) (i : Int) :
    entriesSum (l1 ++ l2) i = entriesSum l1 i + entriesSum l2 i := by
  simp [entriesSum, List.filter_append]

theorem entriesSum_pair (e1 e2 : Entry) (i : Int) :
    entriesSum [e1, e2] i =
      (if e1.accountID = i then e1.amount else 0) +
      (if e2.accountID = i then e2.amount else 0) := by
  by_cases h1 : e1.accountID = i <;> by_cases h2 : e2.accountID = i <;>
    simp [entriesSum, h1, h2]

theorem mem_applyDelta {l : List Account} {i d : Int} {c : Account}
    (hc : c ∈ applyDelta l i d) :
    ∃ a ∈ l, c = if a.id = i then a.addBal d else a := by
  unfold applyDelta at hc
  obtain ⟨a, hal, hac⟩ := List.mem_map.mp hc
  refine ⟨a, hal, ?_⟩
  by_cases h : a.id = i <;> simp [h] at hac ⊢ <;> exact hac.symm

/-- One successful transfer preserves the audit-log invariant: the two
appended entries exactly mirror the two balance deltas. -/
theorem balancesMatchLog_succDB (p : TransferTxParams) (db : DB)
    (init : Int → Int) (h : balancesMatchLog init db) :
    balancesMatchLog init (transferTxSuccDB p db) := by
  intro c hc
  have hstep : ∀ (i1 d1 i2 d2 : Int),
      c ∈ applyDelta (applyDelta db.accounts i1 d1) i2 d2 →
      ∃ a ∈ db.accounts,
        c.id = a.id ∧
        c.balance = a.balance + (if a.id = i1 then d1 else 0) +
          (if a.id = i2 then d2 else 0) := by
    intro i1 d1 i2 d2 hmem
    obtain ⟨c1, hc1, hc1e⟩ := mem_applyDelta hmem
    obtain ⟨a, hal, hae⟩ := mem_applyDelta hc1
    subst hae
    subst hc1e
    by_cases h1 : a.id = i1 <;> by_cases h2 : a.id = i2
    · refine ⟨a, hal, ?_, ?_⟩ <;>
        simp [h1, h2, h1.symm.trans h2, Account.addBal] <;> omega
    · refine ⟨a, hal, ?_, ?_⟩ <;>
        simp [h1, h2, (show i1 ≠ i2 from fun hh => h2 (h1.trans hh)),
          Account.addBal] <;> omega
    · refine ⟨a, hal, ?_, ?_⟩ <;>
        simp [h1, h2, (show i2 ≠ i1 from fun hh => h1 (h2.trans hh)),
          Account.addBal] <;> omega
    · refine ⟨a, hal, ?_, ?_⟩ <;>
        simp [h1, h2, Account.addBal] <;> omega
  have hentries : (transferTxSuccDB p db).entries = db.entries ++
      [⟨db.nextEntryID, p.fromAccountID, -p.amount⟩,
       ⟨db.nextEntryID + 1, p.toAccountID, p.amount⟩] := rfl
  by_cases hlt : p.fromAccountID < p.toAccountID
  · have hacc : (transferTxSuccDB p db).accounts =
        applyDelta (applyDelta db.accounts p.fromAccountID (-p.amount))
          p.toAccountID p.amount := by
      simp [transferTxSuccDB, hlt]
    rw [hacc] at hc
    obtain ⟨a, hal, hid, hbal⟩ := hstep _ _ _ _ hc
    have hinv := h a hal
    rw [hentries, hid, hbal, entriesSum_append, entriesSum_pair]
    dsimp only
    by_cases h1 : a.id = p.fromAccountID <;>
      by_cases h2 : a.id = p.toAccountID
    · simp only [if_pos h1, if_pos h2, if_pos h1.symm, if_pos h2.symm]
      omega
    · simp only [if_pos h1, if_neg h2, if_pos h1.symm, if_neg (Ne.symm h2)]
      omega
    · simp only [if_neg h1, if_pos h2, if_neg (Ne.symm h1), if_pos h2.symm]
      omega
    · simp only [if_neg h1, if_neg h2, if_neg (Ne.symm h1),
        if_neg (Ne.symm h2)]
      omega
  · have hacc : (transferTxSuccDB p db).accounts =
        applyDelta (applyDelta db.accounts p.toAccountID p.amount)
          p.fromAccountID (-p.amount) := by
      simp [transferTxSuccDB, hlt]
    rw [hacc] at hc
    obtain ⟨a, hal, hid, hbal⟩ := hstep _ _ _ _ hc
    have hinv := h a hal
    rw [hentries, hid, hbal, entriesSum_append, entriesSum_pair]
    dsimp only
    by_cases h1 : a.id = p.fromAccountID <;>
      by_cases h2 : a.id = p.toAccountID
    · simp only [if_pos h1, if_pos h2, if_pos h1.symm, if_pos h2.symm]
      omega
    · simp only [if_pos h1, if_neg h2, if_pos h1.symm, if_neg (Ne.symm h2)]
      omega
    · simp only [if_neg h1, if_pos h2, if_neg (Ne.symm h1), if_pos h2.symm]
      omega
    · simp only [if_neg h1, if_neg h2, if_neg (Ne.symm h1),
        if_neg (Ne.symm h2)]
      omega

theorem balancesMatchLog_step (env : TxEnv) (db : DB)
    (p : TransferTxParams) (init : Int → Int)
    (h : balancesMatchLog init db) :
    balancesMatchLog init (TransferTx env db p).db := by
  cases hres : (TransferTx env db p).result with
  | error e =>
    have hdb : (TransferTx env db p).db = db :=
      execTx_error_db env db (transferTxBody p) e hres
    rw [hdb]
    exact h
  | ok r =>
    obtain ⟨-, -, a0, b0, -, -, -, hdb⟩ := TransferTx_ok_elim env db p r hres
    rw [hdb]
    exact balancesMatchLog_succDB p db init h

/-- C6 — Audit replay: if every account's balance equals its initial
balance plus the sum of its entries, then after any sequence of
transfers (hence after each individual transfer — instantiate with any
prefix) the same equality still holds: the entries written by each
transfer exactly match the balance deltas it applies. -/
theorem transferTx_audit_replay (env : TxEnv) (init : Int → Int)
    (db : DB) (ps : List TransferTxParams)
    (h : balancesMatchLog init db) :
    balancesMatchLog init (runTransfers env db ps) := by
  induction ps generalizing db with
  | nil => exact h
  | cons p ps ih => exact ih _ (balancesMatchLog_step env db p init h)

/-- Witness for C6: starting from balances 1000/500 with an empty entry
log, running transfers 1→2 of 150 and 2→1 of 30 keeps every balance
equal to its initial balance plus its entry sum. -/
theorem transferTx_audit_replay_witness :
    balancesMatchLog (fun i => if i = 1 then 1000 else 500)
      (runTransfers TxEnv.clean
        ⟨[⟨1, "alice", 1000, "INR"⟩, ⟨2, "bob", 500, "INR"⟩],
         [], [], 1, 1, []⟩
        [⟨1, 2, 150⟩, ⟨2, 1, 30⟩]) :=
  transferTx_audit_replay TxEnv.clean (fun i => if i = 1 then 1000 else 500)
    ⟨[⟨1, "alice", 1000, "INR"⟩, ⟨2, "bob", 500, "INR"⟩], [], [], 1, 1, []⟩
    [⟨1, 2, 150⟩, ⟨2, 1, 30⟩] (by decide)

theorem transferTxFXBody_ok (arg : TransferTxFXParams) (db : DB)
    (a b : Account)
    (ha : findAccount db arg.fromAccountID = some a)
    (hb : findAccount db arg.toAccountID = some b) :
    transferTxFXBody arg db =
      .ok (transferTxFXSuccResult arg db a b,
           transferTxFXSuccDB arg db) := by
  have ha0 : db.accounts.find? (fun x => x.id == arg.fromAccountID) = some a := ha
  have hb0 : db.accounts.find? (fun x => x.id == arg.toAccountID) = some b := hb
  have haid' : a.id = arg.fromAccountID := by simpa using List.find?_some ha0
  have hbid' : b.id = arg.toAccountID := by simpa using List.find?_some hb0
  unfold transferTxFXBody CreateTransfer CreateEntry
  simp only [findAccount] at ha hb ⊢
  by_cases hlt : arg.fromAccountID < arg.toAccountID
  · have hne : arg.fromAccountID ≠ arg.toAccountID := ne_of_lt hlt
    simp only [ha, hb, Option.isSome_some, Bool.and_self, if_true, hlt,
      UpdateAccountBalance, findAccount, find?_applyDelta, Option.map_some']
    simp [hbid', transferTxFXSuccResult, transferTxFXSuccDB, hlt,
      if_neg hne, if_neg (Ne.symm hne), Account.addBal]
    omega
  · simp only [ha, hb, Option.isSome_some, Bool.and_self, if_true, hlt,
      UpdateAccountBalance, findAccount, find?_applyDelta, Option.map_some']
    by_cases heq : arg.fromAccountID = arg.toAccountID
    · simp [haid', transferTxFXSuccResult, transferTxFXSuccDB, hlt,
        if_pos heq, heq, Account.addBal]
      omega
    · simp [haid', transferTxFXSuccResult, transferTxFXSuccDB, hlt,
        if_neg heq, Account.addBal]
      omega

theorem transferTxFXBody_err_from (arg : TransferTxFXParams) (db : DB)
    (hfa : findAccount db arg.fromAccountID = none) :
    transferTxFXBody arg db = .error "foreign key violation" := by
  unfold transferTxFXBody CreateTransfer
  simp [hfa]

theorem transferTxFXBody_err_to (arg : TransferTxFXParams) (db : DB)
    (hfb : findAccount db arg.toAccountID = none) :
    transferTxFXBody arg db = .error "foreign key violation" := by
  unfold transferTxFXBody CreateTransfer
  simp [hfb]

theorem TransferTxFX_ok_elim (env : TxEnv) (db : DB)
    (arg : TransferTxFXParams) (r : TransferTxFXResult)
    (h : (TransferTxFX env db arg).result = .ok r) :
    env.beginErr = none ∧ env.commitErr = none ∧
    ∃ a b, findAccount db arg.fromAccountID = some a ∧
      findAccount db arg.toAccountID = some b ∧
      r = transferTxFXSuccResult arg db a b ∧
      (TransferTxFX env db arg).db = transferTxFXSuccDB arg db := by
  cases hbe : env.beginErr with
  | some e =>
    exfalso
    unfold TransferTxFX execTx at h
    rw [hbe] at h
    simp at h
  | none =>
    cases hfa : findAccount db arg.fromAccountID with
    | none =>
      exfalso
      unfold TransferTxFX execTx at h
      rw [hbe, transferTxFXBody_err_from arg db hfa] at h
      cases hrb : env.rollbackErr <;> rw [hrb] at h <;> simp at h
    | some a =>
      cases hfb : findAccount db arg.toAccountID with
      | none =>
        exfalso
        unfold TransferTxFX execTx at h
        rw [hbe, transferTxFXBody_err_to arg db hfb] at h
        cases hrb : env.rollbackErr <;> rw [hrb] at h <;> simp at h
      | some b =>
        have hbody := transferTxFXBody_ok arg db a b hfa hfb
        cases hce : env.commitErr with
        | some ce =>
          exfalso
          unfold TransferTxFX execTx at h
          rw [hbe, hbody, hce] at h
          simp at h
        | none =>
          unfold TransferTxFX execTx at h ⊢
          rw [hbe, hbody, hce] at h ⊢
          simp only [Except.ok.injEq] at h
          exact ⟨rfl, rfl, a, b, rfl, rfl, h.symm, rfl⟩

/-- C8 — Cross-currency transfer shape: a successful
`TransferTxFX(from, to, fromAmount, toAmount, rate)` records the debit
entry with `-fromAmount` (source currency), the credit entry with
`+toAmount` (destination currency), persists the transfer row with the
source-currency amount `fromAmount`, applies exactly those two balance
deltas, and has the same atomicity as the same-currency transfer: any
error leaves the state untouched. -/
theorem transferTxFX_shape (env : TxEnv) (db : DB)
    (arg : TransferTxFXParams) (r : TransferTxFXResult)
    (h : (TransferTxFX env db arg).result = .ok r) :
    r.transfer = ⟨db.nextTransferID, arg.fromAccountID, arg.toAccountID,
      arg.fromAmount⟩ ∧
    r.fromEntry = ⟨db.nextEntryID, arg.fromAccountID, -arg.fromAmount⟩ ∧
    r.toEntry = ⟨db.nextEntryID + 1, arg.toAccountID, arg.toAmount⟩ ∧
    r.rate = arg.rate ∧
    (TransferTxFX env db arg).db.transfers = db.transfers ++
      [⟨db.nextTransferID, arg.fromAccountID, arg.toAccountID,
        arg.fromAmount⟩] ∧
    (TransferTxFX env db arg).db.entries = db.entries ++
      [⟨db.nextEntryID, arg.fromAccountID, -arg.fromAmount⟩,
       ⟨db.nextEntryID + 1, arg.toAccountID, arg.toAmount⟩] ∧
    (∀ (env2 : TxEnv) (db2 : DB) (e : String),
      (TransferTxFX env2 db2 arg).result = .error e →
      (TransferTxFX env2 db2 arg).db = db2) := by
  obtain ⟨-, -, a, b, ha, hb, hr, hdb⟩ := TransferTxFX_ok_elim env db arg r h
  subst hr
  rw [hdb]
  refine ⟨rfl, rfl, rfl, rfl, rfl, rfl, ?_⟩
  intro env2 db2 e he
  exact execTx_error_db env2 db2 (transferTxFXBody arg) e he

/-- Witness for C8: converting 83 INR from account 1 into 1 USD credited
to account 2 (rate 1/83) records entries -83 and +1 and a transfer row
with amount 83. -/
theorem transferTxFX_shape_witness :
    ∃ r, (TransferTxFX TxEnv.clean
      ⟨[⟨1, "alice", 1000, "INR"⟩, ⟨2, "bob", 500, "USD"⟩],
       [], [], 1, 1, []⟩ ⟨1, 2, 83, 1, f64div ⟨1, 0⟩ ⟨83, 0⟩⟩).result = .ok r ∧
      r.transfer = ⟨1, 1, 2, 83⟩ ∧
      r.fromEntry = ⟨1, 1, -83⟩ ∧
      r.toEntry = ⟨2, 2, 1⟩ := by
  have h := transferTxFX_shape TxEnv.clean
    ⟨[⟨1, "alice", 1000, "INR"⟩, ⟨2, "bob", 500, "USD"⟩], [], [], 1, 1, []⟩
    ⟨1, 2, 83, 1, f64div ⟨1, 0⟩ ⟨83, 0⟩⟩
    (transferTxFXSuccResult ⟨1, 2, 83, 1, f64div ⟨1, 0⟩ ⟨83, 0⟩⟩
      ⟨[⟨1, "alice", 1000, "INR"⟩, ⟨2, "bob", 500, "USD"⟩], [], [], 1, 1, []⟩
      ⟨1, "alice", 1000, "INR"⟩ ⟨2, "bob", 500, "USD"⟩) rfl
  exact ⟨_, rfl, h.1, h.2.1, h.2.2.1⟩

/-- Counterexample to C7: the handler performs no sufficiency check.
Account 1 ("alice", balance 100 INR) transfers 150 to account 2 through
the orchestrator; the request is accepted, the transfer succeeds, and
the source balance becomes −50 < 0. -/
theorem createTransfer_overdraft_cx :
    ∃ r, (createTransfer TxEnv.clean
      ⟨[⟨1, "alice", 100, "INR"⟩, ⟨2, "bob", 500, "INR"⟩],
       [], [], 1, 1, []⟩
      "alice" ⟨1, 2, 150, "", ""⟩).1 = .okSame r ∧
    findAccount (createTransfer TxEnv.clean
      ⟨[⟨1, "alice", 100, "INR"⟩, ⟨2, "bob", 500, "INR"⟩],
       [], [], 1, 1, []⟩
      "alice" ⟨1, 2, 150, "", ""⟩).2 1 =
      some ⟨1, "alice", -50, "INR"⟩ ∧
    ¬ (0 ≤ (-50 : Int)) :=
  ⟨_, rfl, rfl, by decide⟩

/-- C7 (amended) — The orchestrator rejects non-positive amounts at
binding time, but performs no insufficient-funds check; consequently the
source balance stays nonnegative only when the requested amount does not
exceed the source balance: in that case a successful same-currency
transfer leaves the source balance at `balance − amount ≥ 0` (balance
unchanged for a self-transfer). -/
theorem createTransfer_source_balance (env : TxEnv) (db : DB)
    (auth : String) (req : transferRequest) (a : Account)
    (ha : findAccount db req.fromAccountID = some a)
    (h0 : 0 ≤ a.balance)
    (hsuff : req.amount ≤ a.balance) :
    (req.amount ≤ 0 →
      ∀ (r : TransferTxResult) (db' : DB),
        createTransfer env db auth req ≠ (.okSame r, db')) ∧
    (∀ (r : TransferTxResult) (db' : DB),
      createTransfer env db auth req = (.okSame r, db') →
      ∃ a', findAccount db' req.fromAccountID = some a' ∧
        a'.balance = a.balance -
          (if req.fromAccountID = req.toAccountID then 0 else req.amount) ∧
        0 ≤ a'.balance) := by
  constructor
  · intro hle r db' hrun
    have hbind : bindTransferRequest req = false := by
      simp [bindTransferRequest]
      intro h1 h2
      omega
    unfold createTransfer at hrun
    rw [if_pos hbind] at hrun
    simp at hrun
  · intro r db' hrun
    unfold createTransfer at hrun
    split at hrun
    · simp at hrun
    · split at hrun
      · simp at hrun
      · rename_i fromAccount hfrom
        split at hrun
        · simp at hrun
        · split at hrun
          · simp at hrun
          · split at hrun
            · simp at hrun
            · rename_i toAccount hto
              split at hrun
              · simp at hrun
              · split at hrun
                · rename_i hsame
                  split at hrun
                  · rename_i db2 r0 ev heq
                    simp only [Prod.mk.injEq, TransferResponse.okSame.injEq]
                      at hrun
                    obtain ⟨hr0, hdb2⟩ := hrun
                    have hres : (TransferTx env db
                        ⟨req.fromAccountID, req.toAccountID,
                         req.amount⟩).result = .ok r0 := by
                      rw [heq]
                    obtain ⟨-, -, a1, b1, ha1, hb1, -, hdbx⟩ :=
                      TransferTx_ok_elim env db _ r0 hres
                    rw [heq] at hdbx
                    simp only at hdbx
                    rw [ha] at ha1
                    obtain rfl : a = a1 := Option.some.inj ha1
                    have haid : a.id = req.fromAccountID := findAccount_id ha
                    subst hdb2
                    subst hdbx
                    rw [findAccount_transferTxSuccDB, ha]
                    by_cases hself : req.fromAccountID = req.toAccountID
                    · refine ⟨a.addBal (-req.amount + req.amount), ?_, ?_, ?_⟩
                      · simp [haid, hself]
                      · simp [hself]
                      · simp
                        omega
                    · refine ⟨a.addBal (-req.amount + 0), ?_, ?_, ?_⟩
                      · simp [haid, hself]
                      · simp [haid, hself]
                        omega
                      · simp
                        omega
                  · simp at hrun
                · split at hrun
                  · split at hrun
                    · simp at hrun
                    · split at hrun
                      · simp at hrun
                      · split at hrun
                        · simp at hrun
                        · simp at hrun

/-- Witness for the amended C7: with balance 1000 and amount 150 ≤ 1000,
the successful transfer leaves the source balance at 850 ≥ 0. -/
theorem createTransfer_source_balance_witness :
    ∃ a', findAccount (createTransfer TxEnv.clean
      ⟨[⟨1, "alice", 1000, "INR"⟩, ⟨2, "bob", 500, "INR"⟩],
       [], [], 1, 1, []⟩
      "alice" ⟨1, 2, 150, "", ""⟩).2 1 = some a' ∧
      a'.balance = 850 ∧ 0 ≤ a'.balance := by
  have h := createTransfer_source_balance TxEnv.clean
    ⟨[⟨1, "alice", 1000, "INR"⟩, ⟨2, "bob", 500, "INR"⟩], [], [], 1, 1, []⟩
    "alice" ⟨1, 2, 150, "", ""⟩ ⟨1, "alice", 1000, "INR"⟩
    rfl (by decide) (by decide)
  obtain ⟨a', h1, h2, h3⟩ := h.2 _ _ rfl
  refine ⟨a', h1, ?_, h3⟩
  rw [h2]
  decide

theorem log2fuel_spec : ∀ (fuel n : Nat), 0 < n → n ≤ 2 ^ fuel →
    2 ^ log2fuel fuel n ≤ n ∧ n < 2 ^ (log2fuel fuel n + 1) := by
  intro fuel
  induction fuel with
  | zero =>
    intro n h1 h2
    simp only [pow_zero] at h2
    simp only [log2fuel, pow_zero, pow_one]
    omega
  | succ fuel ih =>
    intro n h1 h2
    by_cases hn : n < 2
    · simp [log2fuel, hn]
      omega
    · have hrec := ih (n / 2) (by omega) (by
        have : 2 ^ (fuel + 1) = 2 * 2 ^ fuel := by ring
        omega)
      simp only [log2fuel, if_neg hn]
      have h3 : 2 ^ (log2fuel fuel (n / 2) + 1) = 2 * 2 ^ log2fuel fuel (n / 2) := by
        ring
      have h4 : 2 ^ (log2fuel fuel (n / 2) + 1 + 1) =
          2 * 2 ^ (log2fuel fuel (n / 2) + 1) := by
        ring
      omega

theorem natLog2_spec (n : Nat) (h : 0 < n) :
    2 ^ natLog2 n ≤ n ∧ n < 2 ^ (natLog2 n + 1) :=
  log2fuel_spec n n h (Nat.le_of_lt n.lt_two_pow)

theorem roundMant_bounds (num den : Nat) :
    num / den ≤ roundMant num den ∧ roundMant num den ≤ num / den + 1 := by
  unfold roundMant
  split
  · omega
  · split
    · omega
    · split <;> omega

theorem roundMant_spec (num den : Nat) (hden : 0 < den) :
    |(roundMant num den : ℚ) - (num : ℚ) / den| ≤ 1 / 2 := by
  have hmod := Nat.div_add_mod num den
  have hlt : num % den < den := Nat.mod_lt _ hden
  have hdq : (0:ℚ) < (den : ℚ) := by exact_mod_cast hden
  have hmodq : (den:ℚ) * ((num / den : ℕ):ℚ) + ((num % den : ℕ):ℚ) = (num:ℚ) := by
    exact_mod_cast hmod
  have hx : (num : ℚ) / den = ((num / den : ℕ):ℚ) + ((num % den : ℕ):ℚ) / den := by
    field_simp
    linear_combination -hmodq
  have hfrac0 : (0:ℚ) ≤ ((num % den : ℕ):ℚ) / den := by positivity
  unfold roundMant
  split
  · rename_i h
    have hN : ((num % den : ℕ):ℚ) * 2 < 1 * den := by
      have h2 : (num % den) * 2 < 1 * den := by omega
      exact_mod_cast h2
    have h1 : ((num % den : ℕ):ℚ) / den < 1 / 2 := by
      rw [div_lt_div_iff hdq (by norm_num)]
      linarith
    rw [hx, abs_le]
    constructor <;> push_cast <;> linarith
  · rename_i h
    have h1 : ((num % den : ℕ):ℚ) / den ≤ 1 := by
      rw [div_le_one hdq]
      exact_mod_cast hlt.le
    split
    · rename_i h2
      have hN : (1:ℚ) * den < ((num % den : ℕ):ℚ) * 2 := by
        have h3 : 1 * den < (num % den) * 2 := by omega
        exact_mod_cast h3
      have h3 : (1:ℚ) / 2 < ((num % den : ℕ):ℚ) / den := by
        rw [div_lt_div_iff (by norm_num) hdq]
        linarith
      rw [hx, abs_le]
      constructor <;> push_cast <;> linarith
    · rename_i h2
      have hN : ((num % den : ℕ):ℚ) * 2 = 1 * den := by
        have h3 : (num % den) * 2 = 1 * den := by omega
        exact_mod_cast h3
      have htie : ((num % den : ℕ):ℚ) / den = 1 / 2 := by
        rw [div_eq_div_iff (ne_of_gt hdq) (by norm_num : (2:ℚ) ≠ 0)]
        linarith
      split <;> rw [hx, htie, abs_le] <;> constructor <;>
        push_cast <;> linarith

theorem scale_window (P Q : Nat) (hP : 0 < P) (hQ : 0 < Q) :
    2 ^ 51 * (Q * 2 ^ ((natLog2 P : Int) - (natLog2 Q : Int) - 52).toNat) <
      P * 2 ^ (-((natLog2 P : Int) - (natLog2 Q : Int) - 52)).toNat ∧
    P * 2 ^ (-((natLog2 P : Int) - (natLog2 Q : Int) - 52)).toNat <
      2 ^ 53 * (Q * 2 ^ ((natLog2 P : Int) - (natLog2 Q : Int) - 52).toNat) := by
  obtain ⟨hP1, hP2⟩ := natLog2_spec P hP
  obtain ⟨hQ1, hQ2⟩ := natLog2_spec Q hQ
  set lp := natLog2 P with hlp
  set lq := natLog2 Q with hlq
  set a0 := (-((lp : Int) - lq - 52)).toNat with ha0
  set b0 := ((lp : Int) - lq - 52).toNat with hb0
  have hbal : a0 + lp = b0 + lq + 52 := by omega
  have hb0pos : 0 < 2 ^ b0 := Nat.pos_pow_of_pos _ (by norm_num)
  have ha0pos : 0 < 2 ^ a0 := Nat.pos_pow_of_pos _ (by norm_num)
  have hQ2' : Q < 2 * 2 ^ lq := by
    have : 2 ^ (lq + 1) = 2 ^ lq * 2 := pow_succ 2 lq
    omega
  have hP2' : P < 2 * 2 ^ lp := by
    have : 2 ^ (lp + 1) = 2 ^ lp * 2 := pow_succ 2 lp
    omega
  constructor
  · have step1 : Q * 2 ^ b0 < (2 * 2 ^ lq) * 2 ^ b0 :=
      mul_lt_mul_of_pos_right hQ2' hb0pos
    have step2 : 2 ^ 51 * (Q * 2 ^ b0) < 2 ^ 51 * ((2 * 2 ^ lq) * 2 ^ b0) :=
      mul_lt_mul_of_pos_left step1 (by positivity)
    have step3 : 2 ^ 51 * ((2 * 2 ^ lq) * 2 ^ b0) = 2 ^ lp * 2 ^ a0 := by
      have e1 : 2 ^ 51 * ((2 * 2 ^ lq) * 2 ^ b0) = 2 ^ (52 + lq + b0) := by
        rw [pow_add, pow_add]
        ring
      have e2 : (52 : ℕ) + lq + b0 = lp + a0 := by omega
      rw [e1, e2, pow_add]
    have step4 : 2 ^ lp * 2 ^ a0 ≤ P * 2 ^ a0 :=
      Nat.mul_le_mul_right _ hP1
    omega
  · have step1 : P * 2 ^ a0 < (2 * 2 ^ lp) * 2 ^ a0 :=
      mul_lt_mul_of_pos_right hP2' ha0pos
    have step2 : (2 * 2 ^ lp) * 2 ^ a0 = 2 ^ 53 * (2 ^ lq * 2 ^ b0) := by
      have e1 : (2 * 2 ^ lp) * 2 ^ a0 = 2 ^ (1 + lp + a0) := by
        rw [pow_add, pow_add]
        ring
      have e2 : (1 : ℕ) + lp + a0 = 53 + lq + b0 := by omega
      rw [e1, e2, pow_add, pow_add]
      ring
    have step3 : 2 ^ 53 * (2 ^ lq * 2 ^ b0) ≤ 2 ^ 53 * (Q * 2 ^ b0) := by
      apply Nat.mul_le_mul_left
      exact Nat.mul_le_mul_right _ hQ1
    omega

theorem cast_scale_div (P Q a b : Nat) (e : Int) (hQ : 0 < Q)
    (hab : (a : Int) - b = -e) :
    ((P * 2 ^ a : ℕ) : ℚ) / ((Q * 2 ^ b : ℕ) : ℚ) =
      (P : ℚ) / (Q : ℚ) * (2 : ℚ) ^ (-e) := by
  have hQ0 : (Q : ℚ) ≠ 0 := by
    exact_mod_cast hQ.ne'
  push_cast
  rw [← hab, zpow_sub₀ (by norm_num : (2:ℚ) ≠ 0), zpow_natCast, zpow_natCast]
  field_simp

theorem roundScaled_spec (P Q : Nat) (hP : 0 < P) (hQ : 0 < Q) :
    0 < (roundScaled P Q).1 ∧ (roundScaled P Q).1 ≤ 2 ^ 53 ∧
    |((roundScaled P Q).1 : ℚ) -
      (P : ℚ) / (Q : ℚ) * (2:ℚ) ^ (-(roundScaled P Q).2)| ≤ 1 / 2 ∧
    (2:ℚ) ^ (52:ℕ) ≤ (P : ℚ) / (Q : ℚ) * (2:ℚ) ^ (-(roundScaled P Q).2) := by
  obtain ⟨hwl, hwu⟩ := scale_window P Q hP hQ
  unfold roundScaled
  set e0 : Int := (natLog2 P : Int) - (natLog2 Q : Int) - 52 with he0
  set num0 := P * 2 ^ (-e0).toNat with hnum0
  set den := Q * 2 ^ e0.toNat with hden
  have hdenpos : 0 < den := by
    have h2 : 0 < 2 ^ e0.toNat := Nat.pos_pow_of_pos _ (by norm_num)
    exact Nat.mul_pos hQ h2
  have hdq : (0:ℚ) < (den:ℚ) := by exact_mod_cast hdenpos
  by_cases hbr : num0 < 2 ^ 52 * den
  · rw [if_pos hbr]
    dsimp only
    have hw1 : 2 ^ 52 * den ≤ 2 * num0 := by omega
    have hw2 : 2 * num0 < 2 ^ 53 * den := by omega
    have hquot_lb : 2 ^ 52 ≤ (2 * num0) / den :=
      (Nat.le_div_iff_mul_le hdenpos).mpr (by omega)
    have hquot_ub : (2 * num0) / den < 2 ^ 53 :=
      (Nat.div_lt_iff_lt_mul hdenpos).mpr (by omega)
    obtain ⟨hb1, hb2⟩ := roundMant_bounds (2 * num0) den
    have hxeq : ((2 * num0 : ℕ):ℚ) / (den:ℚ) =
        (P:ℚ) / Q * (2:ℚ) ^ (-(e0 - 1)) := by
      have h2n : 2 * num0 = P * 2 ^ ((-e0).toNat + 1) := by
        rw [hnum0, pow_succ]
        ring
      rw [h2n, hden]
      exact cast_scale_div P Q _ _ _ hQ (by omega)
    refine ⟨show 0 < roundMant (2 * num0) den by omega,
            show roundMant (2 * num0) den ≤ 2 ^ 53 by omega, ?_, ?_⟩
    · show |((roundMant (2 * num0) den : ℕ) : ℚ) -
        (P : ℚ) / (Q : ℚ) * (2:ℚ) ^ (-(e0 - 1))| ≤ 1 / 2
      rw [← hxeq]
      exact roundMant_spec (2 * num0) den hdenpos
    · show (2:ℚ) ^ (52:ℕ) ≤ (P : ℚ) / (Q : ℚ) * (2:ℚ) ^ (-(e0 - 1))
      rw [← hxeq, le_div_iff hdq]
      have : ((2 ^ 52 * den : ℕ) : ℚ) ≤ ((2 * num0 : ℕ) : ℚ) := by
        exact_mod_cast hw1
      push_cast at this ⊢
      linarith
  · rw [if_neg hbr]
    dsimp only
    have hw1 : 2 ^ 52 * den ≤ num0 := by omega
    have hw2 : num0 < 2 ^ 53 * den := by omega
    have hquot_lb : 2 ^ 52 ≤ num0 / den :=
      (Nat.le_div_iff_mul_le hdenpos).mpr (by omega)
    have hquot_ub : num0 / den < 2 ^ 53 :=
      (Nat.div_lt_iff_lt_mul hdenpos).mpr (by omega)
    obtain ⟨hb1, hb2⟩ := roundMant_bounds num0 den
    have hxeq : ((num0 : ℕ):ℚ) / (den:ℚ) =
        (P:ℚ) / Q * (2:ℚ) ^ (-e0) := by
      rw [hnum0, hden]
      exact cast_scale_div P Q _ _ _ hQ (by omega)
    refine ⟨show 0 < roundMant num0 den by omega,
            show roundMant num0 den ≤ 2 ^ 53 by omega, ?_, ?_⟩
    · show |((roundMant num0 den : ℕ) : ℚ) -
        (P : ℚ) / (Q : ℚ) * (2:ℚ) ^ (-e0)| ≤ 1 / 2
      rw [← hxeq]
      exact roundMant_spec num0 den hdenpos
    · show (2:ℚ) ^ (52:ℕ) ≤ (P : ℚ) / (Q : ℚ) * (2:ℚ) ^ (-e0)
      rw [← hxeq, le_div_iff hdq]
      have : ((2 ^ 52 * den : ℕ) : ℚ) ≤ ((num0 : ℕ) : ℚ) := by
        exact_mod_cast hw1
      push_cast at this ⊢
      linarith

theorem roundDyadic_spec (p q : Int) (hp : 0 < p) (hq : 0 < q) :
    0 < (roundDyadic p q).m ∧
    |(roundDyadic p q).val - (p : ℚ) / q| ≤ (p : ℚ) / q / 2 ^ 53 := by
  have hp0 : p ≠ 0 := hp.ne'
  have hPnat : (p.natAbs : ℤ) = p := Int.natAbs_of_nonneg hp.le
  have hQnat : (q.natAbs : ℤ) = q := Int.natAbs_of_nonneg hq.le
  have hPpos : 0 < p.natAbs := by omega
  have hQpos : 0 < q.natAbs := by omega
  obtain ⟨hm_pos, hm_ub, herr, hxlb⟩ :=
    roundScaled_spec p.natAbs q.natAbs hPpos hQpos
  have hcastP : ((p.natAbs : ℕ) : ℚ) = (p : ℚ) := by
    rw [show ((p.natAbs : ℕ) : ℚ) = (((p.natAbs : ℕ) : ℤ) : ℚ) from
      (Int.cast_natCast _).symm, hPnat]
  have hcastQ : ((q.natAbs : ℕ) : ℚ) = (q : ℚ) := by
    rw [show ((q.natAbs : ℕ) : ℚ) = (((q.natAbs : ℕ) : ℤ) : ℚ) from
      (Int.cast_natCast _).symm, hQnat]
  set MS := roundScaled p.natAbs q.natAbs with hMS
  set x : ℚ := ((p.natAbs : ℕ) : ℚ) / ((q.natAbs : ℕ) : ℚ) *
    (2:ℚ) ^ (-MS.2) with hxdef
  have h2pos : (0:ℚ) < (2:ℚ) ^ MS.2 := zpow_pos (by norm_num) _
  have hx2 : (p:ℚ) / q = x * (2:ℚ) ^ MS.2 := by
    rw [hxdef, hcastP, hcastQ, mul_assoc,
      ← zpow_add₀ (by norm_num : (2:ℚ) ≠ 0)]
    simp
  have hlow : (1/2 : ℚ) * (2:ℚ) ^ MS.2 ≤ (p:ℚ) / q / 2 ^ 53 := by
    rw [le_div_iff (by positivity : (0:ℚ) < 2 ^ 53), hx2]
    have hstep : (2:ℚ) ^ (52:ℕ) * (2:ℚ) ^ MS.2 ≤ x * (2:ℚ) ^ MS.2 :=
      mul_le_mul_of_nonneg_right hxlb h2pos.le
    calc (1/2 : ℚ) * (2:ℚ) ^ MS.2 * 2 ^ 53
        = (2:ℚ) ^ (52:ℕ) * (2:ℚ) ^ MS.2 := by
          ring_nf
      _ ≤ x * (2:ℚ) ^ MS.2 := hstep
  have herr2 : ∀ (M : Int) (E : Int), (M : ℚ) * 2 ^ E = (MS.1 : ℚ) * 2 ^ MS.2 →
      |(M : ℚ) * 2 ^ E - (p:ℚ)/q| ≤ (p:ℚ)/q / 2 ^ 53 := by
    intro M E hval
    rw [hval, hx2]
    have : (MS.1 : ℚ) * 2 ^ MS.2 - x * 2 ^ MS.2 =
        ((MS.1 : ℚ) - x) * 2 ^ MS.2 := by ring
    rw [this, abs_mul, abs_of_pos h2pos]
    calc |(MS.1 : ℚ) - x| * 2 ^ MS.2 ≤ (1/2) * 2 ^ MS.2 :=
          mul_le_mul_of_nonneg_right herr h2pos.le
      _ ≤ x * 2 ^ MS.2 / 2 ^ 53 := by rw [← hx2]; exact hlow
  unfold roundDyadic
  rw [if_neg hp0]
  by_cases h53 : MS.1 = 2 ^ 53
  · rw [if_pos h53]
    constructor
    · simp [hp]
    · have hval : (((if 0 < p then (1:ℤ) else -1) * 2 ^ 52 : ℤ) : ℚ) *
          2 ^ (MS.2 + 1) = (MS.1 : ℚ) * 2 ^ MS.2 := by
        rw [if_pos hp, h53]
        push_cast
        rw [zpow_add₀ (by norm_num : (2:ℚ) ≠ 0)]
        ring
      exact herr2 _ _ hval
  · rw [if_neg h53]
    constructor
    · show (0:ℤ) < (if 0 < p then (1:ℤ) else -1) * (MS.1 : ℤ)
      rw [if_pos hp, one_mul]
      exact_mod_cast hm_pos
    · have hval : (((if 0 < p then (1:ℤ) else -1) * (MS.1 : ℤ) : ℤ) : ℚ) *
          2 ^ MS.2 = (MS.1 : ℚ) * 2 ^ MS.2 := by
        rw [if_pos hp]
        push_cast
        ring
      exact herr2 _ _ hval

theorem val_pos_m_pos (f : F64) (h : 0 < f.m) : 0 < f.val := by
  unfold F64.val
  have h2 : (0:ℚ) < (2:ℚ) ^ f.e := zpow_pos (by norm_num) _
  have hm : (0:ℚ) < (f.m : ℚ) := by exact_mod_cast h
  positivity

theorem f64ofInt_spec (a : Int) (ha : 0 < a) :
    0 < (f64ofInt a).m ∧
    |(f64ofInt a).val - (a : ℚ)| ≤ (a : ℚ) / 2 ^ 53 := by
  obtain ⟨h1, h2⟩ := roundDyadic_spec a 1 ha (by norm_num)
  refine ⟨h1, ?_⟩
  simpa using h2

theorem val_scale (r : F64) (d : Int) :
    (F64.val ⟨r.m, r.e + d⟩) = r.val * 2 ^ d := by
  unfold F64.val
  rw [zpow_add₀ (by norm_num : (2:ℚ) ≠ 0)]
  ring

theorem rel_err_scale (v t s : ℚ) (hs : 0 < s)
    (h : |v - t| ≤ t / 2 ^ 53) :
    |v * s - t * s| ≤ t * s / 2 ^ 53 := by
  have he : v * s - t * s = (v - t) * s := by ring
  rw [he, abs_mul, abs_of_pos hs, ← div_mul_eq_mul_div]
  exact mul_le_mul_of_nonneg_right h hs.le

theorem f64div_spec (x y : F64) (hx : 0 < x.m) (hy : 0 < y.m) :
    0 < (f64div x y).m ∧
    |(f64div x y).val - x.val / y.val| ≤ (x.val / y.val) / 2 ^ 53 := by
  obtain ⟨h1, h2⟩ := roundDyadic_spec x.m y.m hx hy
  have hs : (0:ℚ) < (2:ℚ) ^ (x.e - y.e) := zpow_pos (by norm_num) _
  refine ⟨h1, ?_⟩
  have hveq : (f64div x y).val =
      (roundDyadic x.m y.m).val * 2 ^ (x.e - y.e) := by
    show (F64.val ⟨(roundDyadic x.m y.m).m,
      (roundDyadic x.m y.m).e + x.e - y.e⟩) = _
    rw [show (roundDyadic x.m y.m).e + x.e - y.e =
      (roundDyadic x.m y.m).e + (x.e - y.e) by ring]
    exact val_scale _ _
  have hteq : x.val / y.val = ((x.m : ℚ) / y.m) * 2 ^ (x.e - y.e) := by
    unfold F64.val
    rw [zpow_sub₀ (by norm_num : (2:ℚ) ≠ 0)]
    have hym : ((y.m : ℚ)) ≠ 0 := by
      have : (0:ℚ) < (y.m : ℚ) := by exact_mod_cast hy
      exact this.ne'
    have h2e : ((2:ℚ) ^ y.e) ≠ 0 := (zpow_pos (by norm_num : (0:ℚ) < 2) _).ne'
    field_simp
  rw [hveq, hteq]
  exact rel_err_scale _ _ _ hs h2

theorem f64mul_spec (x y : F64) (hx : 0 < x.m) (hy : 0 < y.m) :
    0 < (f64mul x y).m ∧
    |(f64mul x y).val - x.val * y.val| ≤ (x.val * y.val) / 2 ^ 53 := by
  obtain ⟨h1, h2⟩ := roundDyadic_spec (x.m * y.m) 1 (mul_pos hx hy)
    (by norm_num)
  have hs : (0:ℚ) < (2:ℚ) ^ (x.e + y.e) := zpow_pos (by norm_num) _
  refine ⟨h1, ?_⟩
  have hveq : (f64mul x y).val =
      (roundDyadic (x.m * y.m) 1).val * 2 ^ (x.e + y.e) := by
    show (F64.val ⟨(roundDyadic (x.m * y.m) 1).m,
      (roundDyadic (x.m * y.m) 1).e + x.e + y.e⟩) = _
    rw [show (roundDyadic (x.m * y.m) 1).e + x.e + y.e =
      (roundDyadic (x.m * y.m) 1).e + (x.e + y.e) by ring]
    exact val_scale _ _
  have hteq : x.val * y.val = ((x.m * y.m : ℤ) : ℚ) * 2 ^ (x.e + y.e) := by
    unfold F64.val
    rw [zpow_add₀ (by norm_num : (2:ℚ) ≠ 0)]
    push_cast
    ring
  have h2' : |(roundDyadic (x.m * y.m) 1).val - ((x.m * y.m : ℤ) : ℚ)| ≤
      ((x.m * y.m : ℤ) : ℚ) / 2 ^ 53 := by
    simpa using h2
  rw [hveq, hteq]
  exact rel_err_scale _ _ _ hs h2'

theorem mathRoundToInt_eq (f : F64) (hm : 0 ≤ f.m) :
    mathRoundToInt f = ⌊f.val + 1 / 2⌋ := by
  unfold mathRoundToInt F64.val
  by_cases he : 0 ≤ f.e
  · rw [if_pos he]
    have hzp : ((2 ^ f.e.toNat : ℤ) : ℚ) = (2:ℚ) ^ f.e := by
      push_cast
      rw [← zpow_natCast (2:ℚ) f.e.toNat, Int.toNat_of_nonneg he]
    rw [← hzp, show ((f.m : ℚ) * ((2 ^ f.e.toNat : ℤ) : ℚ)) =
      (((f.m * 2 ^ f.e.toNat : ℤ)) : ℚ) by push_cast; ring]
    rw [add_comm, Int.floor_add_int]
    norm_num
  · rw [if_neg he, if_pos hm]
    have hk1 : 1 ≤ (-f.e).toNat := by omega
    have hke : f.e = -((-f.e).toNat : ℤ) := by omega
    set k := (-f.e).toNat with hkdef
    have hzp : (2:ℚ) ^ f.e = ((2 ^ k : ℕ) : ℚ)⁻¹ := by
      rw [hke, zpow_neg]
      congr 1
      push_cast
      rw [zpow_natCast]
    have hkpos : (0:ℚ) < ((2 ^ k : ℕ) : ℚ) := by positivity
    have h2k : (2:ℚ) ^ k = 2 ^ (k - 1) * 2 := by
      rw [← pow_succ]
      congr 1
      omega
    have hval : (f.m : ℚ) * (2:ℚ) ^ f.e + 1 / 2 =
        ((f.m + 2 ^ (k - 1) : ℤ) : ℚ) / ((2 ^ k : ℕ) : ℚ) := by
      rw [hzp, eq_div_iff (ne_of_gt hkpos)]
      push_cast
      rw [add_mul]
      have hinv : (f.m:ℚ) * ((2:ℚ) ^ k)⁻¹ * (2:ℚ) ^ k = (f.m:ℚ) := by
        field_simp
      rw [hinv]
      have : (1:ℚ) / 2 * 2 ^ k = 2 ^ (k - 1) := by
        rw [h2k]
        ring
      rw [this]
    rw [hval, Rat.floor_intCast_div_natCast]
    push_cast
    rfl

theorem round_stable (x y : ℚ) (ε δ : ℚ) (hxy : |x - y| ≤ ε) (hεδ : ε < δ)
    (hgap : ∀ k : ℤ, δ ≤ |y - (k + 1 / 2)|) :
    ⌊x + 1 / 2⌋ = ⌊y + 1 / 2⌋ := by
  have hδpos : 0 < δ := lt_of_le_of_lt ((abs_nonneg _).trans hxy) hεδ
  set k0 := ⌊y + 1 / 2⌋ with hk0
  have h1 : (k0 : ℚ) ≤ y + 1 / 2 := Int.floor_le _
  have h2 : y + 1 / 2 < k0 + 1 := Int.lt_floor_add_one _
  have hga : δ ≤ |y - ((k0 - 1 : ℤ) + 1 / 2)| := hgap (k0 - 1)
  have hgb : δ ≤ |y - (k0 + 1 / 2)| := hgap k0
  push_cast at hga hgb
  have hga' : (k0 : ℚ) + δ ≤ y + 1 / 2 := by
    rcases abs_cases (y - ((k0 : ℚ) - 1 + 1 / 2)) with ⟨heq, hc⟩ | ⟨heq, hc⟩ <;>
      rw [heq] at hga <;> linarith
  have hgb' : y + 1 / 2 ≤ (k0 : ℚ) + 1 - δ := by
    rcases abs_cases (y - ((k0 : ℚ) + 1 / 2)) with ⟨heq, hc⟩ | ⟨heq, hc⟩ <;>
      rw [heq] at hgb <;> linarith
  have habs := abs_le.mp hxy
  rw [Int.floor_eq_iff]
  constructor
  · linarith [habs.1, habs.2]
  · push_cast
    linarith [habs.1, habs.2]

theorem tie_gap (a f t : Int) (ht : 0 < t) (ht90 : t ≤ 90)
    (hnt : ¬ ((2 * t) ∣ (2 * a * f - t))) :
    ∀ k : ℤ, (1 : ℚ) / 180 ≤ |((a * f : ℤ) : ℚ) / (t : ℚ) - (k + 1 / 2)| := by
  intro k
  have htq : (0:ℚ) < (t : ℚ) := by exact_mod_cast ht
  have hN : 2 * (a * f) - (2 * k + 1) * t ≠ 0 := by
    intro h0
    apply hnt
    refine ⟨k, by linarith⟩
  have h1 : 1 ≤ |2 * (a * f) - (2 * k + 1) * t| := by
    rcases abs_cases (2 * (a * f) - (2 * k + 1) * t) with ⟨heq, hc⟩ | ⟨heq, hc⟩ <;>
      omega
  have hN1 : 1 ≤ |((2 * (a * f) - (2 * k + 1) * t : ℤ) : ℚ)| := by
    exact_mod_cast h1
  have hexpr : ((a * f : ℤ) : ℚ) / (t : ℚ) - (k + 1 / 2) =
      ((2 * (a * f) - (2 * k + 1) * t : ℤ) : ℚ) / (2 * t) := by
    field_simp
    push_cast
    ring
  rw [hexpr, abs_div, abs_of_pos (by linarith : (0:ℚ) < 2 * (t:ℚ))]
  rw [div_le_div_iff (by norm_num) (by linarith)]
  have ht180 : 2 * (t:ℚ) ≤ 180 := by
    have : (t:ℚ) ≤ 90 := by exact_mod_cast ht90
    linarith
  nlinarith [hN1, ht180]

theorem roundRatHalfAway_eq (p q : Int) (hp : 0 ≤ p) (hq : 0 < q) :
    roundRatHalfAway p q = ⌊(p:ℚ) / q + 1 / 2⌋ := by
  unfold roundRatHalfAway
  rw [if_pos hp]
  have hcast : (((2 * q).toNat : ℕ) : ℚ) = 2 * (q:ℚ) := by
    have h1 : ((2 * q).toNat : ℤ) = 2 * q := Int.toNat_of_nonneg (by omega)
    exact_mod_cast h1
  have hexpr : (p:ℚ) / q + 1 / 2 =
      ((2 * p + q : ℤ) : ℚ) / (((2 * q).toNat : ℕ) : ℚ) := by
    rw [hcast]
    have hq0 : (q:ℚ) ≠ 0 := by
      have : (0:ℚ) < (q:ℚ) := by exact_mod_cast hq
      exact this.ne'
    field_simp
    push_cast
    ring
  rw [hexpr, Rat.floor_intCast_div_natCast]
  have h2q : (0:ℤ) ≤ 2 * q := by omega
  congr 1
  exact (Int.toNat_of_nonneg h2q).symm

set_option maxHeartbeats 2000000 in
theorem convert_core (a f t : Int) (h1 : 1 ≤ a) (h2 : a ≤ 2 ^ 32)
    (hf1 : 1 ≤ f) (hf90 : f ≤ 90) (ht1 : 1 ≤ t) (ht90 : t ≤ 90)
    (hnt : ¬ ((2 * t) ∣ (2 * a * f - t))) :
    mathRoundToInt (f64mul (f64ofInt a) (f64div ⟨f, 0⟩ ⟨t, 0⟩)) =
      roundRatHalfAway (a * f) t := by
  have hfq : (0:ℚ) < (f:ℚ) := by exact_mod_cast (by omega : (0:ℤ) < f)
  have htq : (0:ℚ) < (t:ℚ) := by exact_mod_cast (by omega : (0:ℤ) < t)
  have haq : (1:ℚ) ≤ (a:ℚ) := by exact_mod_cast h1
  have haq' : (a:ℚ) ≤ 2 ^ 32 := by exact_mod_cast h2
  have hfq90 : (f:ℚ) ≤ 90 := by exact_mod_cast hf90
  have hfq1 : (1:ℚ) ≤ (f:ℚ) := by exact_mod_cast hf1
  have htq90 : (t:ℚ) ≤ 90 := by exact_mod_cast ht90
  have htq1 : (1:ℚ) ≤ (t:ℚ) := by exact_mod_cast ht1
  have hvf : (F64.val ⟨f, 0⟩) = (f:ℚ) := by
    unfold F64.val
    norm_num
  have hvt : (F64.val ⟨t, 0⟩) = (t:ℚ) := by
    unfold F64.val
    norm_num
  obtain ⟨hdm, hde⟩ := f64div_spec ⟨f, 0⟩ ⟨t, 0⟩
    (show (0:ℤ) < f by omega) (show (0:ℤ) < t by omega)
  rw [hvf, hvt] at hde
  obtain ⟨hxm, hxe⟩ := f64ofInt_spec a (by omega)
  obtain ⟨hpm, hpe⟩ := f64mul_spec (f64ofInt a) (f64div ⟨f, 0⟩ ⟨t, 0⟩)
    hxm hdm
  set A := (f64ofInt a).val with hAdef
  set D := (f64div ⟨f, 0⟩ ⟨t, 0⟩).val with hDdef
  set P := (f64mul (f64ofInt a) (f64div ⟨f, 0⟩ ⟨t, 0⟩)).val with hPdef
  set X : ℚ := (f:ℚ) / t with hXdef
  have hDpos : 0 < D := val_pos_m_pos _ hdm
  have hApos : 0 < A := val_pos_m_pos _ hxm
  have hX_ub : X ≤ 90 := by
    rw [hXdef, div_le_iff htq]
    nlinarith
  have hX_lb : (1:ℚ) / 90 ≤ X := by
    rw [hXdef, div_le_div_iff (by norm_num) htq]
    nlinarith
  have hde' := abs_le.mp hde
  have hxe' := abs_le.mp hxe
  have hpe' := abs_le.mp hpe
  have hD_ub : D ≤ 91 := by linarith [hde'.2]
  have hA_ub : A ≤ 2 * a := by linarith [hxe'.2]
  have hAD_ub : A * D ≤ 182 * a := by
    nlinarith [mul_le_mul_of_nonneg_left hD_ub hApos.le]
  have hu1 : (A - a) * D ≤ (a / 2 ^ 53) * D :=
    mul_le_mul_of_nonneg_right hxe'.2 hDpos.le
  have hl1 : (-(a / 2 ^ 53)) * D ≤ (A - a) * D :=
    mul_le_mul_of_nonneg_right hxe'.1 hDpos.le
  have hu1' : (a / 2 ^ 53) * D ≤ (a / 2 ^ 53) * 91 :=
    mul_le_mul_of_nonneg_left hD_ub (by positivity)
  have hu2 : a * (D - X) ≤ a * (X / 2 ^ 53) :=
    mul_le_mul_of_nonneg_left hde'.2 (by linarith)
  have hl2 : a * (-(X / 2 ^ 53)) ≤ a * (D - X) :=
    mul_le_mul_of_nonneg_left hde'.1 (by linarith)
  have hX53 : a * (X / 2 ^ 53) ≤ a * (90 / 2 ^ 53) :=
    mul_le_mul_of_nonneg_left (by linarith) (by linarith)
  have htot : |P - a * X| ≤ 363 * a / 2 ^ 53 := by
    rw [abs_le]
    constructor
    · linarith [hpe'.1, hl1, hl2, hu1', hX53, hAD_ub,
        mul_le_mul_of_nonneg_left hD_ub (by positivity : (0:ℚ) ≤ a / 2 ^ 53)]
    · linarith [hpe'.2, hu1, hu1', hu2, hX53, hAD_ub]
  have heps : 363 * (a:ℚ) / 2 ^ 53 ≤ 1 / 4096 := by
    rw [div_le_div_iff (by norm_num) (by norm_num : (0:ℚ) < 4096)]
    norm_num
    linarith
  have htot' : |P - ((a * f : ℤ) : ℚ) / t| ≤ 1 / 4096 := by
    have hXr : (a:ℚ) * X = ((a * f : ℤ) : ℚ) / t := by
      rw [hXdef]
      push_cast
      ring
    rw [← hXr]
    linarith [htot]
  rw [mathRoundToInt_eq _ hpm.le,
    roundRatHalfAway_eq (a * f) t (by nlinarith) (by omega)]
  exact round_stable P (((a * f : ℤ) : ℚ) / t) (1 / 4096) (1 / 180)
    htot' (by norm_num) (tie_gap a f t (by omega) ht90 hnt)

theorem fx_table_cases (c : String) :
    (IsSupportedCurrency c = true ∧ FxRateINR c = ⟨fxTableInt c, 0⟩ ∧
      1 ≤ fxTableInt c ∧ fxTableInt c ≤ 90) ∨
    (IsSupportedCurrency c = false ∧ (FxRateINR c).m = 0 ∧
      fxTableInt c = 0) := by
  by_cases h1 : c = "INR"
  · subst h1
    left
    refine ⟨rfl, rfl, by decide, by decide⟩
  · by_cases h2 : c = "USD"
    · subst h2
      left
      refine ⟨rfl, rfl, by decide, by decide⟩
    · by_cases h3 : c = "EUR"
      · subst h3
        left
        refine ⟨rfl, rfl, by decide, by decide⟩
      · right
        refine ⟨?_, ?_, ?_⟩
        · simp [IsSupportedCurrency, h1, h2, h3]
        · simp [FxRateINR, h1, h2, h3]
        · simp [fxTableInt, h1, h2, h3]

/-- C9 (amended) — `ConvertAmount` fails (returning `0` amount, zero rate
and `ok = false`) iff one of the two currencies is missing from the
fixed table (not INR/USD/EUR); for every supported pair it succeeds, and
its float64 result agrees with the claim's exact rounded value
`round(amount · rate_from / rate_to)` for all amounts `1 ≤ amount ≤ 2^32`
whose exact converted value is not a half-integer tie; for very large
amounts the float64 evaluation can differ from the exact rounding (see
the counterexample). -/
theorem convertAmount_correct (amount : Int) (fc tc : String) :
    ((ConvertAmount amount fc tc).2.2 = false ↔
      ¬(IsSupportedCurrency fc = true ∧ IsSupportedCurrency tc = true)) ∧
    ((ConvertAmount amount fc tc).2.2 = false →
      ConvertAmount amount fc tc = (0, ⟨0, 0⟩, false)) ∧
    (IsSupportedCurrency fc = true → IsSupportedCurrency tc = true →
      1 ≤ amount → amount ≤ 2 ^ 32 →
      ¬ ((2 * fxTableInt tc) ∣
          (2 * amount * fxTableInt fc - fxTableInt tc)) →
      (ConvertAmount amount fc tc).1 = (ConvertAmountSpec amount fc tc).1 ∧
      (ConvertAmount amount fc tc).2.2 = true ∧
      (ConvertAmountSpec amount fc tc).1 =
        roundRatHalfAway (amount * fxTableInt fc) (fxTableInt tc)) := by
  rcases fx_table_cases fc with ⟨hfs, hfr, hf1, hf90⟩ | ⟨hfs, hfr, hf0⟩ <;>
    rcases fx_table_cases tc with ⟨hts, htr, ht1, ht90⟩ | ⟨hts, htr, ht0⟩
  · have hcond : ¬((FxRateINR fc).m = 0 ∨ (FxRateINR tc).m = 0) := by
      rw [hfr, htr]
      simp only
      omega
    refine ⟨?_, ?_, ?_⟩
    · simp only [ConvertAmount, if_neg hcond, hfs, hts]
      simp
    · intro hfalse
      exfalso
      simp only [ConvertAmount, if_neg hcond] at hfalse
      simp at hfalse
    · intro _ _ ha1 ha2 hnt
      have hspec : ConvertAmountSpec amount fc tc =
          (roundRatHalfAway (amount * fxTableInt fc) (fxTableInt tc),
           true) := by
        simp only [ConvertAmountSpec]
        rw [if_neg (by omega)]
      refine ⟨?_, ?_, by rw [hspec]⟩
      · simp only [ConvertAmount, if_neg hcond]
        rw [hspec, hfr, htr]
        exact convert_core amount (fxTableInt fc) (fxTableInt tc)
          ha1 ha2 hf1 hf90 ht1 ht90 hnt
      · simp only [ConvertAmount, if_neg hcond]
  · have hcond : (FxRateINR fc).m = 0 ∨ (FxRateINR tc).m = 0 := Or.inr htr
    refine ⟨?_, ?_, ?_⟩
    · simp only [ConvertAmount, if_pos hcond]
      simp [hts]
    · intro _
      simp only [ConvertAmount, if_pos hcond]
    · intro _ hts'
      rw [hts'] at hts
      exact absurd hts (by simp)
  · have hcond : (FxRateINR fc).m = 0 ∨ (FxRateINR tc).m = 0 := Or.inl hfr
    refine ⟨?_, ?_, ?_⟩
    · simp only [ConvertAmount, if_pos hcond]
      simp [hfs]
    · intro _
      simp only [ConvertAmount, if_pos hcond]
    · intro hfs' _
      rw [hfs'] at hfs
      exact absurd hfs (by simp)
  · have hcond : (FxRateINR fc).m = 0 ∨ (FxRateINR tc).m = 0 := Or.inl hfr
    refine ⟨?_, ?_, ?_⟩
    · simp only [ConvertAmount, if_pos hcond]
      simp [hfs]
    · intro _
      simp only [ConvertAmount, if_pos hcond]
    · intro hfs' _
      rw [hfs'] at hfs
      exact absurd hfs (by simp)

set_option maxRecDepth 1000000 in
/-- Counterexample to C9 as stated: at `amount = 2^53 + 1` (INR→INR,
a supported pair, rate exactly 1) the claim's exact value is
`2^53 + 1`, but the code's float64 evaluation returns `2^53`: the
conversion of `amount` to float64 already rounds (ties-to-even) before
`math.Round` ever runs. -/
theorem convertAmount_float_cx :
    (ConvertAmount (2 ^ 53 + 1) "INR" "INR").2.2 = true ∧
    (ConvertAmountSpec (2 ^ 53 + 1) "INR" "INR").1 = 2 ^ 53 + 1 ∧
    (ConvertAmount (2 ^ 53 + 1) "INR" "INR").1 = 2 ^ 53 ∧
    ((2 ^ 53 : Int) ≠ 2 ^ 53 + 1) :=
  ⟨by decide, by decide, by decide, by decide⟩

set_option maxRecDepth 1000000 in
/-- Witness for the amended C9: 100 USD becomes 8300 INR, the exact
rounded value, with `ok = true`. -/
theorem convertAmount_correct_witness :
    (ConvertAmount 100 "USD" "INR").1 = 8300 ∧
    (ConvertAmount 100 "USD" "INR").2.2 = true := by
  have h := (convertAmount_correct 100 "USD" "INR").2.2
    (by decide) (by decide) (by decide) (by decide) (by decide)
  refine ⟨?_, h.2.1⟩
  rw [h.1]
  decide
